import Mathlib

/-
  Verification of the pyXMLSecurity XML-DSig engine (src/xmlsec/__init__.py).

  The Python module is shallowly embedded:
  * Python byte strings are `List Nat` (each entry a byte value).
  * XML text, tags and attribute values are `String`; an lxml element tree is
    the nested inductive `Node` (tag, attributes, text, children, tail), with
    comments and processing instructions as their own constructors, matching
    the lxml data model used by the source.
  * Node identity / in-place mutation is modelled by threading the document
    tree and addressing nodes by child-index paths (`List Nat`).
  * Fallible Python code returns `Except Err`; each `Err` constructor stands
    for one failure site (the spec's error kinds where it names them, the
    Python exception class for places the spec does not name).
  * External collaborators that are not part of the source file (hashlib
    digest cores, the lxml c14n serializer, rsa_x509_pem key parsing, the
    filesystem, the htmlentitydefs table) are fields of an `Externals`
    record; everything written in the source file itself is translated.
-/

set_option autoImplicit false
set_option maxRecDepth 8000

instance exceptDecEq {ε α : Type} [DecidableEq ε] [DecidableEq α] :
    DecidableEq (Except ε α) := fun a b =>
  match a, b with
  | .ok x, .ok y =>
      if h : x = y then isTrue (by rw [h]) else
        isFalse (fun hc => h (Except.ok.inj hc))
  | .error x, .error y =>
      if h : x = y then isTrue (by rw [h]) else
        isFalse (fun hc => h (Except.error.inj hc))
  | .ok x, .error y => isFalse (fun hc => Except.noConfusion hc)
  | .error x, .ok y => isFalse (fun hc => Except.noConfusion hc)

/-- Failure kinds. The first nine are the spec's closed error set; the rest
    model Python exceptions raised by library calls in the source. -/
inductive Err where
  | unknownTransform
  | unknownReference
  | unresolvedReference
  | inconsistentHash
  | missingElement
  | keyNotFound
  | keyTooSmall
  | signatureMismatch
  | canonicalizationError
  | unknownHashAlgorithm
  | parseError
  | typeError
  | attributeError
  | indexError
  | binasciiError
deriving DecidableEq

/-- An lxml tree node: an element carries a tag, ordered attributes, leading
    text, ordered children and tail text; comments and processing
    instructions carry only text and tail. -/
inductive Node where
  | elem (tag : String) (attrs : List (String × String)) (text : Option String)
      (children : List Node) (tail : Option String)
  | comment (text : Option String) (tail : Option String)
  | pi (text : Option String) (tail : Option String)

def Node.textOf : Node → Option String
  | .elem _ _ tx _ _ => tx
  | .comment tx _ => tx
  | .pi tx _ => tx

def Node.tailOf : Node → Option String
  | .elem _ _ _ _ tl => tl
  | .comment _ tl => tl
  | .pi _ tl => tl

def Node.tagOf : Node → Option String
  | .elem tg _ _ _ _ => some tg
  | _ => none

def Node.childrenOf : Node → List Node
  | .elem _ _ _ cs _ => cs
  | _ => []

def Node.isElem : Node → Bool
  | .elem _ _ _ _ _ => true
  | _ => false

def Node.isCommentOrPI : Node → Bool
  | .comment _ _ => true
  | .pi _ _ => true
  | _ => false

/-- First-match attribute lookup (XML attributes are unique per element). -/
def attrLookup (attrs : List (String × String)) (k : String) : Option String :=
  (attrs.find? (fun p => p.1 = k)).map (fun p => p.2)

/-- elt.get(k, None): elements look keys up in their attributes; lxml
    comments and PIs answer None. -/
def Node.getAttr (n : Node) (k : String) : Option String :=
  match n with
  | .elem _ a _ _ _ => attrLookup a k
  | _ => none

/-- Append a string to a node's tail, treating an absent tail as the empty
    string (models `if p.tail is None: p.tail = ''; p.tail += s`). -/
def Node.addTail (n : Node) (s : String) : Node :=
  match n with
  | .elem tg a tx cs tl => .elem tg a tx cs (some ((tl.getD "") ++ s))
  | .comment tx tl => .comment tx (some ((tl.getD "") ++ s))
  | .pi tx tl => .pi tx (some ((tl.getD "") ++ s))

/-- Node addressed by a child-index path (empty path is the node itself). -/
def getAt : Node → List Nat → Option Node
  | n, [] => some n
  | .elem _ _ _ cs _, i :: p =>
      match cs[i]? with
      | some c => getAt c p
      | none => none
  | _, _ :: _ => none

/-- Replace the `text` field of the node at a path (models `node.text = s`);
    an invalid path leaves the tree unchanged (never happens in the runs we
    model, the paths come from successful searches). -/
def setTextAt : Node → List Nat → String → Node
  | .elem tg a _ cs tl, [], s => .elem tg a (some s) cs tl
  | .comment _ tl, [], s => .comment (some s) tl
  | .pi _ tl, [], s => .pi (some s) tl
  | .elem tg a tx cs tl, i :: p, s =>
      match cs[i]? with
      | some c => .elem tg a tx (cs.set i (setTextAt c p s)) tl
      | none => .elem tg a tx cs tl
  | n, _ :: _, _ => n

/-- The element itself when its tag matches (one candidate path [i]). -/
def tagHit (c : Node) (tg : String) (i : Nat) : List (List Nat) :=
  match c with
  | .elem t _ _ _ _ => if t = tg then [[i]] else []
  | _ => []

mutual

/-- Paths (relative to `n`) of all proper-descendant elements with the given
    tag, in document order: models `n.findall(".//tag")`. -/
def findTagPaths : Node → String → List (List Nat)
  | .elem _ _ _ cs _, tg => findTagInList tg 0 cs
  | _, _ => []

def findTagInList (tg : String) (i : Nat) : List Node → List (List Nat)
  | [] => []
  | c :: rest =>
      tagHit c tg i ++ (findTagPaths c tg).map (List.cons i) ++ findTagInList tg (i + 1) rest

end

/-- elt.find(".//tag"): first proper-descendant element with the tag. -/
def findFirst (n : Node) (tg : String) : Option Node :=
  (findTagPaths n tg).head?.bind (getAt n)

/-- elt.findtext(".//tag"): text of the first matching element, with an
    element that has no text reported as the empty string. -/
def findTextDesc (n : Node) (tg : String) : Option String :=
  (findFirst n tg).map (fun m => m.textOf.getD "")

mutual

/-- Paths of all elements (self included) whose attribute `k` equals `v`,
    in document order: models `t.xpath("//*[@k='v']")`. -/
def findAttrPaths : Node → String → String → List (List Nat)
  | .elem _ a _ cs _, k, v =>
      (if attrLookup a k = some v then [[]] else []) ++ findAttrInList k v 0 cs
  | _, _, _ => []

def findAttrInList (k v : String) (i : Nat) : List Node → List (List Nat)
  | [] => []
  | c :: rest =>
      (findAttrPaths c k v).map (List.cons i) ++ findAttrInList k v (i + 1) rest

end

/- ------------------------------------------------------------------
   Python string helpers used by the source (on `str` values).
   ------------------------------------------------------------------ -/

/-- s.rstrip(ch): drop every trailing occurrence of one character. -/
def pyRstrip (ch : Char) (l : List Char) : List Char :=
  (l.reverse.dropWhile (fun c => c = ch)).reverse

/-- s.split(sep) for a one-character separator: always a non-empty list. -/
def pySplit (sep : Char) : List Char → List (List Char)
  | [] => [[]]
  | c :: r =>
      match pySplit sep r with
      | h :: t => if c = sep then [] :: h :: t else (c :: h) :: t
      | [] => [[]]

/-- s.split() with no argument: split on runs of whitespace, no empties. -/
def pySplitWs (l : List Char) : List String :=
  (l.splitOnP (fun c => c = ' ' || c = '\t' || c = '\n' || c = '\r' ||
      c = '\x0b' || c = '\x0c')).filterMap
    (fun w => if w = [] then none else some (String.mk w))

/- ------------------------------------------------------------------
   Signature Value Codec (`_signed_value` and the DigestInfo table).
   ------------------------------------------------------------------ -/

/-- ASN.1 BER DigestInfo designator prefixes, byte for byte from the
    source's `ASN1_BER_ALG_DESIGNATOR_PREFIX` dict (md2/md5 are commented
    out there). -/
def asn1DesignatorPfx (hash_alg : String) : Option (List Nat) :=
  if hash_alg = "sha1" then
    some [0x30, 0x21, 0x30, 0x09, 0x06, 0x05, 0x2b, 0x0e, 0x03, 0x02, 0x1a, 0x05, 0x00, 0x04, 0x14]
  else if hash_alg = "sha256" then
    some [0x30, 0x31, 0x30, 0x0d, 0x06, 0x09, 0x60, 0x86, 0x48, 0x01, 0x65, 0x03, 0x04, 0x02,
      0x01, 0x05, 0x00, 0x04, 0x20]
  else if hash_alg = "sha384" then
    some [0x30, 0x41, 0x30, 0x0d, 0x06, 0x09, 0x60, 0x86, 0x48, 0x01, 0x65, 0x03, 0x04, 0x02,
      0x02, 0x05, 0x00, 0x04, 0x30]
  else if hash_alg = "sha512" then
    some [0x30, 0x51, 0x30, 0x0d, 0x06, 0x09, 0x60, 0x86, 0x48, 0x01, 0x65, 0x03, 0x04, 0x02,
      0x03, 0x05, 0x00, 0x04, 0x40]
  else none

/-- `_signed_value(data, key_size, do_pad, hash_alg)`. Python integer
    division on a non-negative int is Nat division; `'\xFF' * n` is empty
    for a negative n, hence `Int.toNat` on the pad width. The source has no
    size check of any kind in this function. -/
def _signed_value (data : List Nat) (key_size : Nat) (do_pad : Bool) (hash_alg : String) :
    Except Err (List Nat) :=
  match asn1DesignatorPfx hash_alg with
  | none => .error .unknownHashAlgorithm
  | some pfx =>
      let asn_digest := pfx ++ data
      if do_pad then
        let padded_size : Int := ((key_size / 8 : Nat) : Int) - 1
        let pad_size : Int := padded_size - (asn_digest.length : Int) - 2
        .ok (1 :: List.replicate pad_size.toNat 255 ++ 0 :: asn_digest)
      else
        .ok asn_digest

/-- C3: with do_pad, build_signed_block returns exactly
    0x01 || 0xFF^pad_size || 0x00 || prefix || digest, where
    pad_size = k/8 - 1 - len(prefix||digest) - 2 (whenever that quantity is
    non-negative, so that the claimed repetition count makes sense); in
    particular a 2048-bit key with a 20-byte SHA-1 digest yields a 255-byte
    block that begins 0x01 FF .. FF 00 30 21. -/
theorem C3_padded_block_shape (h : String) (pfx data : List Nat) (k : Nat)
    (hpfx : asn1DesignatorPfx h = some pfx)
    (_hfit : pfx.length + data.length + 2 ≤ k / 8 - 1) :
    (_signed_value data k true h =
      .ok (1 :: List.replicate (k / 8 - 1 - (pfx.length + data.length) - 2) 255 ++
        0 :: (pfx ++ data))) ∧
    (∀ d : List Nat, d.length = 20 →
      _signed_value d 2048 true "sha1" =
        .ok (1 :: List.replicate 218 255 ++
          0 :: ([0x30, 0x21, 0x30, 0x09, 0x06, 0x05, 0x2b, 0x0e, 0x03, 0x02, 0x1a, 0x05,
            0x00, 0x04, 0x14] ++ d)) ∧
      (1 :: List.replicate 218 255 ++
        0 :: ([0x30, 0x21, 0x30, 0x09, 0x06, 0x05, 0x2b, 0x0e, 0x03, 0x02, 0x1a, 0x05,
          0x00, 0x04, 0x14] ++ d)).length = 255) := by
  constructor
  · have hps : (((k / 8 : Nat) : Int) - 1 - (((pfx ++ data).length : Nat) : Int) - 2).toNat
        = k / 8 - 1 - (pfx.length + data.length) - 2 := by
      rw [List.length_append]
      omega
    simp only [_signed_value, hpfx, if_true, hps]
  · intro d hd
    refine ⟨?_, ?_⟩
    · have hps2 : ((((2048 : Nat) / 8 : Nat) : Int) - 1 -
          ((([0x30, 0x21, 0x30, 0x09, 0x06, 0x05, 0x2b, 0x0e, 0x03, 0x02, 0x1a, 0x05,
            0x00, 0x04, 0x14] ++ d).length : Nat) : Int) - 2).toNat = 218 := by
        rw [List.length_append, hd]
        decide
      simp only [_signed_value, asn1DesignatorPfx, if_true, hps2]
    · simp [List.length_append, hd]

/-- C3 witness: the theorem instantiated at the SHA-1 prefix, a zero
    20-byte digest and a 2048-bit modulus. -/
theorem C3_padded_block_shape_witness :
    _signed_value (List.replicate 20 0) 2048 true "sha1" =
      .ok (1 :: List.replicate (2048 / 8 - 1 - (15 + 20) - 2) 255 ++
        0 :: ([0x30, 0x21, 0x30, 0x09, 0x06, 0x05, 0x2b, 0x0e, 0x03, 0x02, 0x1a, 0x05,
          0x00, 0x04, 0x14] ++ List.replicate 20 0)) := by
  exact (C3_padded_block_shape "sha1"
    [0x30, 0x21, 0x30, 0x09, 0x06, 0x05, 0x2b, 0x0e, 0x03, 0x02, 0x1a, 0x05, 0x00, 0x04, 0x14]
    (List.replicate 20 0) 2048 (by decide) (by decide)).1

/-- C4 counterexample: with a 352-bit modulus and a 20-byte SHA-1 digest the
    pad width is 6 < 8, yet `_signed_value` returns a block instead of
    failing with KeyTooSmall — the source contains no such check. -/
theorem C4_counterexample_no_keytoosmall :
    _signed_value (List.replicate 20 0) 352 true "sha1" =
      .ok (1 :: List.replicate 6 255 ++
        0 :: ([0x30, 0x21, 0x30, 0x09, 0x06, 0x05, 0x2b, 0x0e, 0x03, 0x02, 0x1a, 0x05,
          0x00, 0x04, 0x14] ++ List.replicate 20 0)) ∧
    ((352 / 8 : Nat) : Int) - 1 - 35 - 2 < 8 := by
  exact ⟨by decide, by decide⟩

/-- C4 amended: build_signed_block with do_pad=true performs no minimum-pad
    check at all. For every modulus bit size it returns
    0x01 || 0xFF^max(pad_size,0) || 0x00 || T and never fails with
    KeyTooSmall, even when pad_size < 8. -/
theorem C4_no_pad_size_check (h : String) (pfx data : List Nat) (k : Nat)
    (hpfx : asn1DesignatorPfx h = some pfx) :
    _signed_value data k true h =
      .ok (1 :: List.replicate
        (((k / 8 : Nat) : Int) - 1 - ((pfx.length + data.length : Nat) : Int) - 2).toNat 255 ++
        0 :: (pfx ++ data)) := by
  simp only [_signed_value, hpfx, if_pos rfl, List.length_append]
  norm_num

/-- C4 witness: the amended theorem at a 352-bit key, where pad_size = 6. -/
theorem C4_no_pad_size_check_witness :
    _signed_value (List.replicate 20 0) 352 true "sha1" =
      .ok (1 :: List.replicate
        (((352 / 8 : Nat) : Int) - 1 - ((15 + 20 : Nat) : Int) - 2).toNat 255 ++
        0 :: ([0x30, 0x21, 0x30, 0x09, 0x06, 0x05, 0x2b, 0x0e, 0x03, 0x02, 0x1a, 0x05,
          0x00, 0x04, 0x14] ++ List.replicate 20 0)) :=
  C4_no_pad_size_check "sha1"
    [0x30, 0x21, 0x30, 0x09, 0x06, 0x05, 0x2b, 0x0e, 0x03, 0x02, 0x1a, 0x05, 0x00, 0x04, 0x14]
    (List.replicate 20 0) 352 (by decide)

/- ------------------------------------------------------------------
   Base64 (Python's str.encode('base64').replace('\n','') and
   str.decode('base64'); the decoder ignores non-alphabet bytes the way
   binascii does and fails on incorrect padding).
   ------------------------------------------------------------------ -/

def B64CHARS : List Char :=
  "ABCDEFGHIJKLMNOPQRSTUVWXYZabcdefghijklmnopqrstuvwxyz0123456789+/".toList

def b64idx (n : Nat) : Char := B64CHARS.getD n '?'

def b64valAux (c : Char) (i : Nat) : List Char → Option Nat
  | [] => none
  | d :: rest => if d = c then some i else b64valAux c (i + 1) rest

def b64val (c : Char) : Option Nat := b64valAux c 0 B64CHARS

def b64isChar (c : Char) : Bool := (b64val c).isSome || c = '='

def b64encode : List Nat → List Char
  | [] => []
  | [a] => [b64idx (a / 4), b64idx (a % 4 * 16), '=', '=']
  | [a, b] => [b64idx (a / 4), b64idx (a % 4 * 16 + b / 16), b64idx (b % 16 * 4), '=']
  | a :: b :: c :: rest =>
      b64idx (a / 4) :: b64idx (a % 4 * 16 + b / 16) :: b64idx (b % 16 * 4 + c / 64) ::
        b64idx (c % 64) :: b64encode rest

/-- One quad of base64 decoding, with the recursive result passed in. -/
def b64decTail (va vb : Nat) (c d : Char) (rest : List Char) (r? : Option (List Nat)) :
    Option (List Nat) :=
  if c = '=' then
    if d = '=' ∧ rest = [] then some [va * 4 + vb / 16] else none
  else
    match b64val c with
    | some vc =>
        if d = '=' then
          if rest = [] then some [va * 4 + vb / 16, vb % 16 * 16 + vc / 4] else none
        else
          match b64val d with
          | some vd =>
              match r? with
              | some r =>
                  some ((va * 4 + vb / 16) :: (vb % 16 * 16 + vc / 4) ::
                    (vc % 4 * 64 + vd) :: r)
              | none => none
          | none => none
    | none => none

def b64decodeQuads : List Char → Option (List Nat)
  | [] => some []
  | a :: b :: c :: d :: rest =>
      match b64val a, b64val b with
      | some va, some vb => b64decTail va vb c d rest (b64decodeQuads rest)
      | _, _ => none
  | _ => none

def b64decode (l : List Char) : Option (List Nat) :=
  b64decodeQuads (l.filter b64isChar)

/-- b64e on a byte string (the int branch of the source helper never runs in
    the code paths modelled here). -/
def b64e (l : List Nat) : String := (b64encode l).asString

/-- b64d = lambda s: s.decode('base64'). -/
def b64d (s : String) : Option (List Nat) := b64decode s.toList

theorem b64val_b64idx : ∀ n : Nat, n < 64 → b64val (b64idx n) = some n := by decide

theorem b64idx_ne_pad : ∀ n : Nat, n < 64 → b64idx n ≠ '=' := by decide

theorem b64isChar_b64idx : ∀ n : Nat, n < 64 → b64isChar (b64idx n) = true := by decide

theorem b64encode_nil : b64encode [] = [] := rfl

theorem b64encode_one (a : Nat) :
    b64encode [a] = [b64idx (a / 4), b64idx (a % 4 * 16), '=', '='] := rfl

theorem b64encode_two (a b : Nat) :
    b64encode [a, b] =
      [b64idx (a / 4), b64idx (a % 4 * 16 + b / 16), b64idx (b % 16 * 4), '='] := rfl

theorem b64encode_cons (a b c : Nat) (rest : List Nat) :
    b64encode (a :: b :: c :: rest) =
      b64idx (a / 4) :: b64idx (a % 4 * 16 + b / 16) :: b64idx (b % 16 * 4 + c / 64) ::
        b64idx (c % 64) :: b64encode rest := rfl

theorem b64decodeQuads_cons (a b c d : Char) (rest : List Char) :
    b64decodeQuads (a :: b :: c :: d :: rest) =
      match b64val a, b64val b with
      | some va, some vb => b64decTail va vb c d rest (b64decodeQuads rest)
      | _, _ => none := rfl

theorem mulAddDiv (x y c : Nat) (hy : y < c) (hc : 0 < c) : (x * c + y) / c = x := by
  rw [Nat.add_comm, Nat.add_mul_div_right _ _ hc, Nat.div_eq_of_lt hy, Nat.zero_add]

theorem mulAddMod (x y c : Nat) (hy : y < c) : (x * c + y) % c = y := by
  rw [Nat.add_comm, Nat.add_mul_mod_self_right]
  exact Nat.mod_eq_of_lt hy

theorem b64isChar_pad : b64isChar '=' = true := by decide

theorem b64encode_filter : ∀ l : List Nat, (∀ x ∈ l, x < 256) →
    (b64encode l).filter b64isChar = b64encode l
  | [], _ => rfl
  | [a], h => by
      have ha : a < 256 := h a (by simp)
      have h1 : a / 4 < 64 := by omega
      have h2 : a % 4 * 16 < 64 := by omega
      rw [b64encode_one]
      simp [List.filter_cons, b64isChar_b64idx _ h1, b64isChar_b64idx _ h2, b64isChar_pad]
  | [a, b], h => by
      have ha : a < 256 := h a (by simp)
      have hb : b < 256 := h b (by simp)
      have h1 : a / 4 < 64 := by omega
      have h2 : a % 4 * 16 + b / 16 < 64 := by omega
      have h3 : b % 16 * 4 < 64 := by omega
      rw [b64encode_two]
      simp [List.filter_cons, b64isChar_b64idx _ h1, b64isChar_b64idx _ h2,
        b64isChar_b64idx _ h3, b64isChar_pad]
  | a :: b :: c :: rest, h => by
      have ha : a < 256 := h a (by simp)
      have hb : b < 256 := h b (by simp)
      have hc : c < 256 := h c (by simp)
      have h1 : a / 4 < 64 := by omega
      have h2 : a % 4 * 16 + b / 16 < 64 := by omega
      have h3 : b % 16 * 4 + c / 64 < 64 := by omega
      have h4 : c % 64 < 64 := by omega
      have ih := b64encode_filter rest (fun x hx => h x (by simp [hx]))
      rw [b64encode_cons]
      simp only [List.filter_cons, b64isChar_b64idx _ h1, b64isChar_b64idx _ h2,
        b64isChar_b64idx _ h3, b64isChar_b64idx _ h4, if_true]
      rw [ih]

theorem b64decodeQuads_b64encode : ∀ l : List Nat, (∀ x ∈ l, x < 256) →
    b64decodeQuads (b64encode l) = some l
  | [], _ => by decide
  | [a], h => by
      have ha : a < 256 := h a (by simp)
      have h1 : a / 4 < 64 := by omega
      have h2 : a % 4 * 16 < 64 := by omega
      have e1 : a % 4 * 16 / 16 = a % 4 := Nat.mul_div_cancel _ (by omega)
      rw [b64encode_one, b64decodeQuads_cons]
      simp only [b64val_b64idx _ h1, b64val_b64idx _ h2, b64decTail]
      simp only [if_pos rfl, and_self, ite_true, e1, Option.some.injEq, List.cons.injEq,
        and_true]
      omega
  | [a, b], h => by
      have ha : a < 256 := h a (by simp)
      have hb : b < 256 := h b (by simp)
      have h1 : a / 4 < 64 := by omega
      have h2 : a % 4 * 16 + b / 16 < 64 := by omega
      have h3 : b % 16 * 4 < 64 := by omega
      have e1 : (a % 4 * 16 + b / 16) / 16 = a % 4 := mulAddDiv _ _ _ (by omega) (by omega)
      have e2 : (a % 4 * 16 + b / 16) % 16 = b / 16 := mulAddMod _ _ _ (by omega)
      have e3 : b % 16 * 4 / 4 = b % 16 := Nat.mul_div_cancel _ (by omega)
      rw [b64encode_two, b64decodeQuads_cons]
      simp only [b64val_b64idx _ h1, b64val_b64idx _ h2, b64decTail]
      rw [if_neg (b64idx_ne_pad _ h3)]
      simp only [b64val_b64idx _ h3]
      simp only [if_pos rfl, ite_true, e1, e2, e3, Option.some.injEq, List.cons.injEq,
        and_true]
      exact ⟨by omega, by omega⟩
  | a :: b :: c :: rest, h => by
      have ha : a < 256 := h a (by simp)
      have hb : b < 256 := h b (by simp)
      have hc : c < 256 := h c (by simp)
      have h1 : a / 4 < 64 := by omega
      have h2 : a % 4 * 16 + b / 16 < 64 := by omega
      have h3 : b % 16 * 4 + c / 64 < 64 := by omega
      have h4 : c % 64 < 64 := by omega
      have e1 : (a % 4 * 16 + b / 16) / 16 = a % 4 := mulAddDiv _ _ _ (by omega) (by omega)
      have e2 : (a % 4 * 16 + b / 16) % 16 = b / 16 := mulAddMod _ _ _ (by omega)
      have e3 : (b % 16 * 4 + c / 64) / 4 = b % 16 := mulAddDiv _ _ _ (by omega) (by omega)
      have e4 : (b % 16 * 4 + c / 64) % 4 = c / 64 := mulAddMod _ _ _ (by omega)
      have ih := b64decodeQuads_b64encode rest (fun x hx => h x (by simp [hx]))
      rw [b64encode_cons, b64decodeQuads_cons]
      simp only [b64val_b64idx _ h1, b64val_b64idx _ h2, b64decTail]
      rw [if_neg (b64idx_ne_pad _ h3)]
      simp only [b64val_b64idx _ h3]
      rw [if_neg (b64idx_ne_pad _ h4)]
      simp only [b64val_b64idx _ h4, ih, e1, e2, e3, e4, Option.some.injEq, List.cons.injEq]
      exact ⟨by omega, by omega, by omega, trivial⟩

theorem b64decode_b64encode (l : List Nat) (h : ∀ x ∈ l, x < 256) :
    b64decode (b64encode l) = some l := by
  unfold b64decode
  rw [b64encode_filter l h, b64decodeQuads_b64encode l h]

theorem toList_asString (l : List Char) : (List.asString l).toList = l := rfl

theorem b64d_b64e (l : List Nat) (h : ∀ x ∈ l, x < 256) : b64d (b64e l) = some l := by
  unfold b64d b64e
  rw [toList_asString, b64decode_b64encode l h]

/- ------------------------------------------------------------------
   Token stream of a tree (text, tails and element order in document
   order) and `_delete_elt` addressed by a path.
   ------------------------------------------------------------------ -/

inductive Tok where
  | ch (c : Char)
  | openE (tag : String)
  | closeE (tag : String)
  | openC
  | closeC
  | openP
  | closeP
deriving DecidableEq

/-- Character tokens of an optional text (absent and empty agree). -/
def chs (o : Option String) : List Tok := (o.getD "").data.map Tok.ch

mutual

/-- Serialization of a node: markers for element/comment/PI boundaries,
    character tokens for text and tails. -/
def streamN : Node → List Tok
  | .elem tg _ tx cs tl => Tok.openE tg :: chs tx ++ streamL cs ++ Tok.closeE tg :: chs tl
  | .comment tx tl => Tok.openC :: chs tx ++ Tok.closeC :: chs tl
  | .pi tx tl => Tok.openP :: chs tx ++ Tok.closeP :: chs tl

def streamL : List Node → List Tok
  | [] => []
  | c :: rest => streamN c ++ streamL rest

end

/-- Delete the sibling at index `i` of `rest`, where `prev` is the sibling
    just before it: the deleted node's tail (if any) is appended to `prev`'s
    tail, as in `_delete_elt`. Returns the rebuilt sibling list starting
    with `prev`. -/
def delInListWithPrev (prev : Node) : List Node → Nat → Option (List Node)
  | c :: rest, 0 =>
      match c.tailOf with
      | none => some (prev :: rest)
      | some s => some (prev.addTail s :: rest)
  | c :: rest, i + 1 => (delInListWithPrev c rest i).map (fun l => prev :: l)
  | [], _ => none

/-- Delete child `i` from a sibling list with parent text `tx`: with no
    previous sibling the tail goes to the parent's text, else to the
    previous sibling's tail (`_delete_elt`, lines 278-295). -/
def deleteChildAt (tx : Option String) (cs : List Node) (i : Nat) :
    Option (Option String × List Node) :=
  match cs, i with
  | [], _ => none
  | c :: rest, 0 =>
      match c.tailOf with
      | none => some (tx, rest)
      | some s => some (some ((tx.getD "") ++ s), rest)
  | c :: rest, i + 1 => (delInListWithPrev c rest i).map (fun l => (tx, l))

/-- `_delete_elt` of the node at a path. The empty path is the root, which
    has no parent: the source's `assert elt.getparent() is not None` makes
    that impossible, modelled by returning `none`. -/
def delete_elt : Node → List Nat → Option Node
  | _, [] => none
  | .elem tg a tx cs tl, [i] =>
      (deleteChildAt tx cs i).map (fun pr => .elem tg a pr.1 pr.2 tl)
  | .elem tg a tx cs tl, i :: p =>
      match cs[i]? with
      | some c =>
          match delete_elt c p with
          | some c2 => some (.elem tg a tx (cs.set i c2) tl)
          | none => none
      | none => none
  | _, _ :: _ => none

mutual

/-- Stream of a tree with the subtree at the given path skipped: the skipped
    node contributes only its tail characters. -/
def streamSkipN : Node → List Nat → List Tok
  | n, [] => chs n.tailOf
  | .elem tg _ tx cs tl, i :: p =>
      Tok.openE tg :: chs tx ++ streamSkipL cs i p ++ Tok.closeE tg :: chs tl
  | n, _ :: _ => streamN n
termination_by _ p => (p.length, 0)

def streamSkipL : List Node → Nat → List Nat → List Tok
  | [], _, _ => []
  | c :: rest, 0, p => streamSkipN c p ++ streamL rest
  | c :: rest, i + 1, p => streamN c ++ streamSkipL rest i p
termination_by cs _ p => (p.length, cs.length + 1)

end

theorem chs_concat (o : Option String) (s : String) :
    chs (some ((o.getD "") ++ s)) = chs o ++ s.data.map Tok.ch := by
  cases o <;> simp [chs]

theorem streamN_addTail (n : Node) (s : String) :
    streamN (n.addTail s) = streamN n ++ s.data.map Tok.ch := by
  cases n <;> simp [streamN, Node.addTail, chs_concat, Node.tailOf]

theorem delInListWithPrev_stream : ∀ (cs : List Node) (i : Nat) (prev : Node),
    i < cs.length →
    ∃ l, delInListWithPrev prev cs i = some l ∧
      streamL l = streamN prev ++ streamSkipL cs i []
  | [], i, prev, h => absurd h (by simp)
  | c :: rest, 0, prev, _ => by
      cases hc : c.tailOf with
      | none =>
          refine ⟨prev :: rest, by simp [delInListWithPrev, hc], ?_⟩
          simp [streamL, streamSkipL, streamSkipN, hc, chs]
      | some s =>
          refine ⟨prev.addTail s :: rest, by simp [delInListWithPrev, hc], ?_⟩
          simp [streamL, streamSkipL, streamSkipN, hc, chs, streamN_addTail]
  | c :: rest, i + 1, prev, h => by
      obtain ⟨l0, hdel, hstr⟩ := delInListWithPrev_stream rest i c (by simpa using h)
      refine ⟨prev :: l0, by simp [delInListWithPrev, hdel], ?_⟩
      simp [streamL, streamSkipL, hstr]

theorem deleteChildAt_stream : ∀ (cs : List Node) (i : Nat) (tx : Option String),
    i < cs.length →
    ∃ tx2 cs2, deleteChildAt tx cs i = some (tx2, cs2) ∧
      chs tx2 ++ streamL cs2 = chs tx ++ streamSkipL cs i []
  | [], i, tx, h => absurd h (by simp)
  | c :: rest, 0, tx, _ => by
      cases hc : c.tailOf with
      | none =>
          refine ⟨tx, rest, by simp [deleteChildAt, hc], ?_⟩
          simp [streamSkipL, streamSkipN, hc, chs]
      | some s =>
          refine ⟨some ((tx.getD "") ++ s), rest, by simp [deleteChildAt, hc], ?_⟩
          simp [streamSkipL, streamSkipN, hc, chs_concat, chs]
  | c :: rest, i + 1, tx, h => by
      obtain ⟨l0, hdel, hstr⟩ := delInListWithPrev_stream rest i c (by simpa using h)
      refine ⟨tx, l0, by simp [deleteChildAt, hdel], ?_⟩
      simp [streamSkipL, hstr]

theorem streamL_set : ∀ (cs : List Node) (i : Nat) (c c2 : Node) (p2 : List Nat),
    cs[i]? = some c → streamN c2 = streamSkipN c p2 →
    streamL (cs.set i c2) = streamSkipL cs i p2
  | [], i, c, c2, p2, h, _ => by simp at h
  | c0 :: rest, 0, c, c2, p2, h, h2 => by
      simp at h
      subst h
      simp [List.set, streamL, streamSkipL, h2]
  | c0 :: rest, i + 1, c, c2, p2, h, h2 => by
      have ih := streamL_set rest i c c2 p2 (by simpa using h) h2
      simp [List.set, streamL, streamSkipL, ih]

theorem delete_elt_stream : ∀ (p : List Nat) (t x : Node), p ≠ [] → getAt t p = some x →
    ∃ t2, delete_elt t p = some t2 ∧ streamN t2 = streamSkipN t p
  | [], _, _, hp, _ => absurd rfl hp
  | [i], t, x, _, hx => by
      match t with
      | .elem tg a tx cs tl =>
          simp only [getAt] at hx
          match hc : cs[i]? with
          | none => rw [hc] at hx; exact absurd hx (by simp)
          | some c =>
              have hi : i < cs.length := by
                by_contra hlen
                rw [List.getElem?_eq_none (by omega)] at hc
                exact Option.noConfusion hc
              obtain ⟨tx2, cs2, hdel, hstr⟩ := deleteChildAt_stream cs i tx hi
              refine ⟨.elem tg a tx2 cs2 tl, by simp [delete_elt, hdel], ?_⟩
              simp only [streamN, streamSkipN, List.cons_append, List.append_assoc]
              rw [← List.append_assoc, ← List.append_assoc, hstr]
      | .comment tx tl => simp [getAt] at hx
      | .pi tx tl => simp [getAt] at hx
  | i :: j :: p3, t, x, _, hx => by
      match t with
      | .elem tg a tx cs tl =>
          simp only [getAt] at hx
          match hc : cs[i]? with
          | none => rw [hc] at hx; exact Option.noConfusion hx
          | some c =>
              rw [hc] at hx
              obtain ⟨c2, hdel, hstr⟩ := delete_elt_stream (j :: p3) c x (by simp) hx
              refine ⟨.elem tg a tx (cs.set i c2) tl, by simp [delete_elt, hc, hdel], ?_⟩
              simp only [streamN, streamSkipN]
              rw [streamL_set cs i c c2 (j :: p3) hc hstr]
      | .comment tx tl => simp [getAt] at hx
      | .pi tx tl => simp [getAt] at hx

/-- C9: deleting any non-root node (any valid non-empty path) removes
    exactly that subtree: the resulting tree's token stream (all text,
    tails, and element boundaries in document order) is the original
    stream with the deleted subtree's tokens dropped and its tail text
    kept in place, i.e. appended where the previous sibling's tail or the
    parent's text ends; the root itself (empty path) can never be
    deleted. -/
theorem C9_delete_elt_preserves_stream (t x : Node) (p : List Nat)
    (hp : p ≠ []) (hx : getAt t p = some x) :
    (∃ t2, delete_elt t p = some t2 ∧ streamN t2 = streamSkipN t p) ∧
    delete_elt t [] = none := by
  refine ⟨delete_elt_stream p t x hp hx, ?_⟩
  cases t <;> rfl

/-- C9 witness: delete the second child (a comment with tail "y") of a
    two-child root; its tail is appended after the first child's tail and
    the rest of the stream is untouched. -/
theorem C9_delete_elt_preserves_stream_witness :
    (∃ t2, delete_elt
        (.elem "r" [] (some "a")
          [.elem "c" [] none [] (some "x"), .comment (some "cc") (some "y")] (some "z")) [1] =
        some t2 ∧
      streamN t2 = streamSkipN
        (.elem "r" [] (some "a")
          [.elem "c" [] none [] (some "x"), .comment (some "cc") (some "y")] (some "z")) [1]) ∧
    delete_elt
      (.elem "r" [] (some "a")
        [.elem "c" [] none [] (some "x"), .comment (some "cc") (some "y")] (some "z")) [] =
      none :=
  C9_delete_elt_preserves_stream _ (.comment (some "cc") (some "y")) [1] (by simp) rfl

/- ------------------------------------------------------------------
   `_remove_child_comments`: document-order iteration over the tree,
   deleting every comment and processing instruction via `_delete_elt`.
   A deleted node's tail goes to the previous remaining sibling's tail,
   or, before any remaining sibling, to the parent's text; deletions in
   distinct subtrees are independent, so the in-order sweep is modelled
   as one left-to-right pass per level over already-processed children.
   ------------------------------------------------------------------ -/

def removeCPAux (tx : Option String) (accRev : List Node) : List Node → Option String × List Node
  | [] => (tx, accRev.reverse)
  | c :: rest =>
      if c.isCommentOrPI then
        match c.tailOf, accRev with
        | none, _ => removeCPAux tx accRev rest
        | some s, [] => removeCPAux (some ((tx.getD "") ++ s)) [] rest
        | some s, p :: ps => removeCPAux tx (p.addTail s :: ps) rest
      else removeCPAux tx (c :: accRev) rest

mutual

/-- `_remove_child_comments` on a (deep-copied) tree: every comment and PI
    in the subtree is `_delete_elt`-ed, tails relocated as in the source. -/
def stripNode : Node → Node
  | .elem tg a tx cs tl =>
      let pr := removeCPAux tx [] (stripL cs)
      .elem tg a pr.1 pr.2 tl
  | n => n

def stripL : List Node → List Node
  | [] => []
  | c :: rest => stripNode c :: stripL rest

end

mutual

/-- No comment and no processing instruction anywhere in the subtree. -/
def noCP : Node → Bool
  | .elem _ _ _ cs _ => noCPL cs
  | _ => false

def noCPL : List Node → Bool
  | [] => true
  | c :: rest => noCP c && noCPL rest

end

theorem noCP_addTail (n : Node) (s : String) : noCP (n.addTail s) = noCP n := by
  cases n <;> rfl

theorem noCPL_iff (l : List Node) : noCPL l = true ↔ ∀ c ∈ l, noCP c = true := by
  induction l with
  | nil => simp [noCPL]
  | cons c rest ih => simp [noCPL, ih]

theorem removeCPAux_noCP : ∀ (l : List Node) (tx : Option String) (accRev : List Node),
    (∀ c ∈ accRev, noCP c = true) →
    (∀ c ∈ l, c.isCommentOrPI = false → noCP c = true) →
    noCPL (removeCPAux tx accRev l).2 = true
  | [], tx, accRev, hacc, _ => by
      simp only [removeCPAux]
      rw [noCPL_iff]
      intro c hc
      exact hacc c (by simpa using hc)
  | c :: rest, tx, accRev, hacc, hl => by
      by_cases hcp : c.isCommentOrPI = true
      · simp only [removeCPAux, hcp, if_true]
        cases hc : c.tailOf with
        | none =>
            exact removeCPAux_noCP rest tx accRev hacc (fun d hd hdcp => hl d (by simp [hd]) hdcp)
        | some s =>
            cases accRev with
            | nil =>
                exact removeCPAux_noCP rest _ [] (by simp)
                  (fun d hd hdcp => hl d (by simp [hd]) hdcp)
            | cons p ps =>
                refine removeCPAux_noCP rest tx (p.addTail s :: ps) ?_
                  (fun d hd hdcp => hl d (by simp [hd]) hdcp)
                intro d hd
                rcases List.mem_cons.mp hd with h1 | h2
                · rw [h1, noCP_addTail]
                  exact hacc p (by simp)
                · exact hacc d (by simp [h2])
      · have hcp2 : c.isCommentOrPI = false := by
          cases h : c.isCommentOrPI
          · rfl
          · exact absurd h hcp
        simp only [removeCPAux, hcp2, Bool.false_eq_true, if_false]
        refine removeCPAux_noCP rest tx (c :: accRev) ?_
          (fun d hd hdcp => hl d (by simp [hd]) hdcp)
        intro d hd
        rcases List.mem_cons.mp hd with h1 | h2
        · rw [h1]; exact hl c (by simp) hcp2
        · exact hacc d h2

mutual

theorem stripNode_noCP : ∀ n : Node, n.isElem = true → noCP (stripNode n) = true
  | .elem tg a tx cs tl, _ => by
      simp only [stripNode, noCP]
      exact removeCPAux_noCP (stripL cs) tx [] (by simp) (stripL_noCP cs)
  | .comment _ _, h => by simp [Node.isElem] at h
  | .pi _ _, h => by simp [Node.isElem] at h

theorem stripL_noCP : ∀ l : List Node, ∀ c ∈ stripL l, c.isCommentOrPI = false → noCP c = true
  | [], c, hc, _ => by simp [stripL] at hc
  | d :: rest, c, hc, hcp => by
      rw [stripL] at hc
      rcases List.mem_cons.mp hc with h1 | h2
      · subst h1
        match d with
        | .elem tg a tx cs tl => exact stripNode_noCP _ rfl
        | .comment tx tl => simp [stripNode, Node.isCommentOrPI] at hcp
        | .pi tx tl => simp [stripNode, Node.isCommentOrPI] at hcp
      · exact stripL_noCP rest c h2 hcp

end

/- ------------------------------------------------------------------
   ID attributes: module state, `setID`, `_get_by_id`.
   ------------------------------------------------------------------ -/

/-- Module-level default: `_id_attributes = ['ID','id']`. -/
def _id_attributes : List String := ["ID", "id"]

/-- `setID(ids)`: the body `_id_attributes = ids` binds a function-local
    name (the function has no `global` statement), so the module-level
    `_id_attributes` is left exactly as it was. The function is modelled as
    the induced transformation of the module state: the identity. -/
def setID (_ids : List String) (idAttrs : List String) : List String := idAttrs

/-- `_get_by_id(t, id_v)` with the current module state passed explicitly:
    try each configured attribute name in order; the first xpath hit wins. -/
def _get_by_id (idAttrs : List String) (t : Node) (idv : String) : Option Node :=
  match idAttrs with
  | [] => none
  | a :: rest =>
      match (findAttrPaths t a idv).head? with
      | some p => getAt t p
      | none => _get_by_id rest t idv

/- ------------------------------------------------------------------
   Reference URI dereferencing (`_process_references`, lines 212-224).
   ------------------------------------------------------------------ -/

def tagSignature : String := "\x7bhttp://www.w3.org/2000/09/xmldsig#\x7dSignature"
def tagSignedInfo : String := "\x7bhttp://www.w3.org/2000/09/xmldsig#\x7dSignedInfo"
def tagSignatureValue : String := "\x7bhttp://www.w3.org/2000/09/xmldsig#\x7dSignatureValue"
def tagReference : String := "\x7bhttp://www.w3.org/2000/09/xmldsig#\x7dReference"
def tagTransform : String := "\x7bhttp://www.w3.org/2000/09/xmldsig#\x7dTransform"
def tagDigestMethod : String := "\x7bhttp://www.w3.org/2000/09/xmldsig#\x7dDigestMethod"
def tagDigestValue : String := "\x7bhttp://www.w3.org/2000/09/xmldsig#\x7dDigestValue"
def tagCanonicalizationMethod : String :=
  "\x7bhttp://www.w3.org/2000/09/xmldsig#\x7dCanonicalizationMethod"
def tagX509Certificate : String := "\x7bhttp://www.w3.org/2000/09/xmldsig#\x7dX509Certificate"
def tagInclusiveNamespaces : String :=
  "\x7bhttp://www.w3.org/2001/10/xml-exc-c14n#\x7dInclusiveNamespaces"

/-- Dereference a Reference URI against the document `t` (deep copies are
    the identity on pure values): absent/empty/"#" URIs give the whole
    document with comments and PIs removed; "#id" selects by ID attribute,
    failing when nothing matches; anything else is an unknown reference. -/
def dereference (idAttrs : List String) (t : Node) (uri : Option String) : Except Err Node :=
  if uri = none ∨ uri = some "#" ∨ uri = some "" then
    .ok (stripNode t)
  else
    match uri with
    | some u =>
        if u.startsWith "#" then
          match _get_by_id idAttrs t (u.drop 1) with
          | some o => .ok o
          | none => .error .unresolvedReference
        else .error .unknownReference
    | none => .error .unknownReference

/-- C7: a Reference URI that is absent, "", or "#" dereferences to a copy
    of the whole document in which every comment and every processing
    instruction has been removed; in particular all three URI forms give
    the same object (hence the same digest input). -/
theorem C7_empty_uri_forms (idAttrs : List String) (t : Node) (ht : t.isElem = true)
    (u : Option String) (hu : u = none ∨ u = some "" ∨ u = some "#") :
    dereference idAttrs t u = .ok (stripNode t) ∧
    noCP (stripNode t) = true ∧
    dereference idAttrs t none = dereference idAttrs t (some "") ∧
    dereference idAttrs t (some "") = dereference idAttrs t (some "#") := by
  refine ⟨?_, stripNode_noCP t ht, ?_, ?_⟩
  · rcases hu with h | h | h <;> subst h <;> simp [dereference]
  · simp [dereference]
  · simp [dereference]

/-- C7 witness: a document carrying a comment, a PI and a nested comment;
    all three URI forms dereference to the stripped copy, which contains
    no comments or PIs. -/
theorem C7_empty_uri_forms_witness :
    dereference ["ID", "id"]
      (.elem "r" [] (some "a")
        [.comment (some "c1") (some "t1"),
         .elem "x" [] (some "b") [.pi (some "p") (some "t2")] (some "t3"),
         .comment (some "c2") none] (some "z")) (some "#") =
      .ok (stripNode
        (.elem "r" [] (some "a")
          [.comment (some "c1") (some "t1"),
           .elem "x" [] (some "b") [.pi (some "p") (some "t2")] (some "t3"),
           .comment (some "c2") none] (some "z"))) ∧
    noCP (stripNode
      (.elem "r" [] (some "a")
        [.comment (some "c1") (some "t1"),
         .elem "x" [] (some "b") [.pi (some "p") (some "t2")] (some "t3"),
         .comment (some "c2") none] (some "z"))) = true := by
  have h := C7_empty_uri_forms ["ID", "id"]
    (.elem "r" [] (some "a")
      [.comment (some "c1") (some "t1"),
       .elem "x" [] (some "b") [.pi (some "p") (some "t2")] (some "t3"),
       .comment (some "c2") none] (some "z")) rfl (some "#") (by simp)
  exact ⟨h.1, h.2.1⟩

/-- C6: the source's `setID` assigns to a function-local `_id_attributes`
    (no `global` declaration), so the process-wide ID-attribute list is
    unchanged: after `setID(['dataID'])` a '#x' dereference still searches
    ['ID','id'] (the default) and misses an element whose `dataID` is 'x',
    while a search that really used ['dataID'] would find it. -/
theorem C6_setID_is_noop :
    setID ["dataID"] _id_attributes = ["ID", "id"] ∧
    _id_attributes = ["ID", "id"] ∧
    _get_by_id (setID ["dataID"] _id_attributes)
      (.elem "r" [] none [.elem "c" [("dataID", "x")] none [] none] none) "x" = none ∧
    _get_by_id ["dataID"]
      (.elem "r" [] none [.elem "c" [("dataID", "x")] none [] none] none) "x" =
      some (.elem "c" [("dataID", "x")] none [] none) :=
  ⟨rfl, rfl, rfl, rfl⟩

/- ------------------------------------------------------------------
   External collaborators (hashlib cores, lxml c14n serializer,
   rsa_x509_pem, filesystem, htmlentitydefs) and transform objects.
   ------------------------------------------------------------------ -/

/-- rsa_x509_pem's view of a parsed certificate: `key.size()` (the stated
    bit size, one less than the modulus bit length) and the raw public
    exponentiation `f_public` producing big-endian bytes without the
    leading zero. -/
structure RSAKey where
  size : Nat
  pub : List Nat → List Nat

structure Externals where
  isfile : String → Bool
  readFileStr : String → String
  /-- rsa_x509_pem.parse + get_key bundled; `none` = parse failure. -/
  rsaParse : String → Option RSAKey
  /-- hashlib digest core: algorithm name and data to raw digest bytes. -/
  hashFn : String → List Nat → List Nat
  /-- etree.tostring(method c14n) composed with the utf-8 'replace'
      decode of the source: flags are (exclusive, with_comments,
      inclusive_ns_prefixes). -/
  c14nSer : Bool → Bool → Option (List String) → Node → String
  /-- htmlentitydefs.name2codepoint, composed with unichr. -/
  name2cp : String → Option Char

/-- The hash constructors the hashlib module exposes (getattr succeeds
    exactly on these names in the embedding). -/
def hashlibNames : List String := ["md5", "sha1", "sha224", "sha256", "sha384", "sha512"]

/-- A value flowing through a Transform chain: an element tree or a byte
    string (Python passes either through the same variable). -/
inductive XObj where
  | tree (t : Node)
  | bytes (b : List Nat)

/-- `_digest(data, hash_alg)`: look the algorithm up in hashlib (TypeError
    for None, AttributeError for an unknown name), feed the data (TypeError
    unless it is a byte string), base64 the digest. -/
def _digest (E : Externals) : XObj → Option String → Except Err String
  | _, none => .error .typeError
  | data, some h =>
      if hashlibNames.contains h then
        match data with
        | .bytes b => .ok (b64e (E.hashFn h b))
        | .tree _ => .error .typeError
      else .error .attributeError

/-- `_alg(elt)`: the Algorithm attribute with trailing '#' stripped. -/
def _alg (elt : Node) : Option String :=
  match elt.getAttr "Algorithm" with
  | none => none
  | some uri => some (String.mk (pyRstrip '#' uri.data))

/- ------------------------------------------------------------------
   `_unescape` (regex "&#?\w+;" scan with the source's fixup).
   ------------------------------------------------------------------ -/

def isWordChar (c : Char) : Bool := c.isAlphanum || c = '_'

/-- Match the regex `&#?\w+;` just after a '&' (word part and terminator,
    `hashed` records whether a '#' was consumed): returns (saw '#', the
    word, the rest after the ';'). -/
def matchEntityCore (hashed : Bool) (r : List Char) : Option (Bool × List Char × List Char) :=
  if (r.dropWhile isWordChar).head? = some ';' ∧ r.takeWhile isWordChar ≠ [] then
    some (hashed, r.takeWhile isWordChar, (r.dropWhile isWordChar).tail)
  else none

def matchEntity (l : List Char) : Option (Bool × List Char × List Char) :=
  if l.head? = some '#' then matchEntityCore true l.tail else matchEntityCore false l

def hexVal (c : Char) : Option Nat :=
  if c.isDigit then some (c.toNat - 48)
  else if 'a' ≤ c ∧ c ≤ 'f' then some (c.toNat - 87)
  else if 'A' ≤ c ∧ c ≤ 'F' then some (c.toNat - 55)
  else none

def parseHexAux : List Char → Nat → Option Nat
  | [], acc => some acc
  | c :: r, acc =>
      match hexVal c with
      | some v => parseHexAux r (acc * 16 + v)
      | none => none

/-- int(s, 16) on a non-empty word. -/
def parseHex : List Char → Option Nat
  | [] => none
  | l => parseHexAux l 0

def parseDecAux : List Char → Nat → Option Nat
  | [], acc => some acc
  | c :: r, acc =>
      if c.isDigit then parseDecAux r (acc * 10 + (c.toNat - 48)) else none

/-- int(s) on a non-empty word. -/
def parseDec : List Char → Option Nat
  | [] => none
  | l => parseDecAux l 0

/-- unichr(n) for a representable scalar (a reference to a lone surrogate
    is treated as unrepresentable and the entity is left as written). -/
def unichrOpt (n : Nat) : Option Char :=
  if n.isValidChar then some (Char.ofNat n) else none

/-- The source's `fixup`: numeric character references are decoded
    (ValueError leaves the text as is); `&amp;`, `&lt;`, `&gt;` are
    preserved; other named entities go through htmlentitydefs, KeyError
    leaves them as is. -/
def fixupEntity (n2cp : String → Option Char) (hashed : Bool) (w : List Char) : List Char :=
  let full : List Char := ('&' :: (if hashed then '#' :: w else w)) ++ [';']
  if hashed then
    match (if w.head? = some 'x' then parseHex w.tail else parseDec w) with
    | some n =>
        match unichrOpt n with
        | some ch => [ch]
        | none => full
    | none => full
  else
    if full = "&amp;".data ∨ full = "&lt;".data ∨ full = "&gt;".data then full
    else
      match n2cp (String.mk w) with
      | some ch => [ch]
      | none => full

theorem dropWhile_length_le (p : Char → Bool) : ∀ l : List Char,
    (List.dropWhile p l).length ≤ l.length
  | [] => Nat.le_refl _
  | c :: rest => by
      rw [List.dropWhile]
      cases p c
      · simp
      · simpa using Nat.le_succ_of_le (dropWhile_length_le p rest)

theorem matchEntityCore_shrink (hs : Bool) (r : List Char) (b : Bool) (w r2 : List Char)
    (h : matchEntityCore hs r = some (b, w, r2)) : r2.length < r.length := by
  unfold matchEntityCore at h
  by_cases hcc : (r.dropWhile isWordChar).head? = some ';' ∧ r.takeWhile isWordChar ≠ []
  · rw [if_pos hcc] at h
    have h1 : r2 = (r.dropWhile isWordChar).tail :=
      (congrArg (fun q => q.2.2) (Option.some.inj h)).symm
    have h2 := dropWhile_length_le isWordChar r
    have h3 : (r.dropWhile isWordChar).tail.length < (r.dropWhile isWordChar).length := by
      rcases hdd : r.dropWhile isWordChar with _ | ⟨c, r2x⟩
      · rw [hdd] at hcc; simp at hcc
      · simp
    rw [h1]
    omega
  · rw [if_neg hcc] at h
    exact Option.noConfusion h

theorem matchEntity_shrink (l : List Char) (b : Bool) (w r : List Char)
    (h : matchEntity l = some (b, w, r)) : r.length < l.length := by
  unfold matchEntity at h
  by_cases hc : l.head? = some '#'
  · rw [if_pos hc] at h
    have h2 := matchEntityCore_shrink true l.tail b w r h
    have h3 : l.tail.length ≤ l.length := by
      cases l <;> simp
    omega
  · rw [if_neg hc] at h
    exact matchEntityCore_shrink false l b w r h

/-- `_unescape` body: re.sub("&#?\w+;", fixup, text), scanning left to
    right, replacing each match and leaving everything else untouched.
    The scan consumes at least one character per step (`matchEntity_shrink`),
    so fuel equal to the input length always suffices; fuel keeps the
    recursion structural (hence computable by the kernel). -/
def unescapeFuel (n2cp : String → Option Char) : Nat → List Char → List Char
  | 0, _ => []
  | _ + 1, [] => []
  | fuel + 1, c :: rest =>
      if c = '&' then
        match matchEntity rest with
        | some (bb, w, r2) => fixupEntity n2cp bb w ++ unescapeFuel n2cp fuel r2
        | none => '&' :: unescapeFuel n2cp fuel rest
      else c :: unescapeFuel n2cp fuel rest

def unescapeAux (n2cp : String → Option Char) (l : List Char) : List Char :=
  unescapeFuel n2cp l.length l

/- ------------------------------------------------------------------
   `_c14n`, `_enveloped_signature` and `_transform`.
   ------------------------------------------------------------------ -/

/-- UTF-8 bytes of one character (str.encode('utf8')). -/
def utf8Char (c : Char) : List Nat :=
  let n := c.toNat
  if n < 0x80 then [n]
  else if n < 0x800 then [0xC0 + n / 64, 0x80 + n % 64]
  else if n < 0x10000 then [0xE0 + n / 4096, 0x80 + n / 64 % 64, 0x80 + n % 64]
  else [0xF0 + n / 262144, 0x80 + n / 4096 % 64, 0x80 + n / 64 % 64, 0x80 + n % 64]

def utf8Bytes : List Char → List Nat
  | [] => []
  | c :: rest => utf8Char c ++ utf8Bytes rest

def isSpaceByte (b : Nat) : Bool :=
  b = 32 || b = 9 || b = 10 || b = 13 || b = 11 || b = 12

/-- bytes.strip(): ASCII whitespace removed from both ends. -/
def stripBytes (l : List Nat) : List Nat :=
  ((l.dropWhile isSpaceByte).reverse.dropWhile isSpaceByte).reverse

/-- `_c14n(t, exclusive, with_comments, inclusive_prefix_list)`: serialize
    (external), unescape, re-encode utf-8, strip, and assert the '<'…'>'
    frame (an empty result indexes out of range first). A byte-string input
    is a TypeError (etree.tostring of a str). -/
def _c14n (E : Externals) (ob : XObj) (exclusive with_comments : Bool)
    (inclusive_prefix_list : Option (List String)) : Except Err XObj :=
  match ob with
  | .bytes _ => .error .typeError
  | .tree t =>
      let s := E.c14nSer exclusive with_comments inclusive_prefix_list t
      let u := stripBytes (utf8Bytes (unescapeAux E.name2cp s.data))
      match u with
      | [] => .error .indexError
      | bfirst :: _ =>
          if bfirst = 60 ∧ u.getLast? = some 62 then .ok (.bytes u)
          else .error .canonicalizationError

/-- `_enveloped_signature(t)`: delete the first proper-descendant Signature
    element (`_delete_elt(None)` hits an AttributeError when there is
    none; the delete itself cannot fail on a found path). -/
def _enveloped_signature (t : Node) : Except Err Node :=
  match (findTagPaths t tagSignature).head? with
  | none => .error .attributeError
  | some p =>
      match delete_elt t p with
      | some t2 => .ok t2
      | none => .error .attributeError

def TRANSFORM_ENVELOPED_SIGNATURE : String :=
  "http://www.w3.org/2000/09/xmldsig#enveloped-signature"
def TRANSFORM_C14N_EXCLUSIVE_WITH_COMMENTS : String :=
  "http://www.w3.org/2001/10/xml-exc-c14n#WithComments"
def TRANSFORM_C14N_EXCLUSIVE : String := "http://www.w3.org/2001/10/xml-exc-c14n"
def TRANSFORM_C14N_INCLUSIVE : String := "http://www.w3.org/TR/2001/REC-xml-c14n-20010315"

/-- The InclusiveNamespaces/@PrefixList lookup of the two exclusive
    branches of `_transform` (whitespace-split, default ''). -/
def inclusivePrefixes (tr : Option Node) : Option (List String) :=
  match tr with
  | none => none
  | some trn =>
      match findFirst trn tagInclusiveNamespaces with
      | none => none
      | some e => some (pySplitWs ((e.getAttr "PrefixList").getD "").data)

/-- `_transform(uri, t, tr)`: the four supported transforms, anything else
    (a missing Algorithm attribute included) is an unknown transform. An
    enveloped-signature transform applied to a byte string ends in
    `_delete_elt(-1)`, an AttributeError. -/
def _transform (E : Externals) (uri : Option String) (ob : XObj) (tr : Option Node) :
    Except Err XObj :=
  if uri = some TRANSFORM_ENVELOPED_SIGNATURE then
    match ob with
    | .tree t =>
        match _enveloped_signature t with
        | .ok t2 => .ok (.tree t2)
        | .error e => .error e
    | .bytes _ => .error .attributeError
  else if uri = some TRANSFORM_C14N_EXCLUSIVE_WITH_COMMENTS then
    _c14n E ob true true (inclusivePrefixes tr)
  else if uri = some TRANSFORM_C14N_EXCLUSIVE then
    _c14n E ob true false (inclusivePrefixes tr)
  else if uri = some TRANSFORM_C14N_INCLUSIVE then
    _c14n E ob false false none
  else .error .unknownTransform

/- ------------------------------------------------------------------
   Certificate registry (`CertDict`, `_find_matching_cert`, `_cert`).
   ------------------------------------------------------------------ -/

def hexDigit (n : Nat) : Char := "0123456789abcdef".data.getD n '0'

/-- Two lowercase hex digits of a byte (hexdigest, per byte). -/
def hexByte (b : Nat) : List Char := [hexDigit (b / 16 % 16), hexDigit (b % 16)]

/-- hexdigest split into byte pairs and joined with ':' (lowercase). -/
def colonHex (l : List Nat) : String :=
  String.mk (List.intercalate [':'] (l.map hexByte))

/-- Python dict assignment `d[k] = v`: replace or append. -/
def assocSet (l : List (String × String)) (k v : String) : List (String × String) :=
  if l.any (fun p => p.1 = k) then l.map (fun p => if p.1 = k then (k, v) else p)
  else l ++ [(k, v)]

/-- CertDict.__init__: scan X509Certificate descendants, base64-decode each
    body (None text is a TypeError, bad base64 a binascii error), index the
    PEM body under the colon-hex SHA-1 of the DER. -/
def certDictAux (E : Externals) (t : Node) :
    List (List Nat) → List (String × String) → Except Err (List (String × String))
  | [], acc => .ok acc
  | p :: rest, acc =>
      match getAt t p with
      | none => .error .attributeError
      | some cd =>
          match cd.textOf with
          | none => .error .typeError
          | some pemtext =>
              match b64decode pemtext.data with
              | none => .error .binasciiError
              | some der =>
                  certDictAux E t rest (assocSet acc (colonHex (E.hashFn "sha1" der)) pemtext)

def CertDict (E : Externals) (t : Node) : Except Err (List (String × String)) :=
  certDictAux E t (findTagPaths t tagX509Certificate) []

/-- `_find_matching_cert(t, fp)`: first (only, keys are unique) entry whose
    fingerprint equals fp, else None. -/
def _find_matching_cert (E : Externals) (t : Node) (fp : String) :
    Except Err (Option String) :=
  match CertDict E t with
  | .error e => .error e
  | .ok certs => .ok ((certs.find? (fun pr => pr.1 = fp)).map (fun pr => pr.2))

/-- `_cert(sig, keyspec)`: file first, then fingerprint lookup among the
    signature's embedded certificates, else the keyspec is the PEM itself;
    only an unmatched fingerprint leaves `data = None` and raises. -/
def _cert (E : Externals) (sig : Node) (keyspec : String) : Except Err String :=
  if E.isfile keyspec then .ok (E.readFileStr keyspec)
  else if keyspec.data.contains ':' then
    match _find_matching_cert E sig keyspec with
    | .error e => .error e
    | .ok (some cd) =>
        .ok ("-----BEGIN CERTIFICATE-----\n" ++ cd ++ "\n-----END CERTIFICATE-----")
    | .ok none => .error .keyNotFound
  else .ok keyspec

theorem certDictAux_ne_keyNotFound (E : Externals) (t : Node) :
    ∀ (ps : List (List Nat)) (acc : List (String × String)),
    certDictAux E t ps acc ≠ .error .keyNotFound
  | [], acc => by simp [certDictAux]
  | p :: rest, acc => by
      unfold certDictAux
      rcases hg : getAt t p with _ | cd
      · simp [hg]
      · rcases ht : cd.textOf with _ | pemtext
        · simp [hg, ht]
        · rcases hb : b64decode pemtext.data with _ | der
          · simp [hg, ht, hb]
          · simp only [hg, ht, hb]
            exact certDictAux_ne_keyNotFound E t rest _

/-- C10: a keyspec that is not a file and has no ':' resolves to itself and
    never raises; and a KeyNotFound failure can only arise on the
    fingerprint branch (':' present, not a file, and no embedded
    certificate matching the fingerprint). -/
theorem C10_cert_resolution (E : Externals) (sig : Node) (k : String)
    (hf : E.isfile k = false) (hc : k.data.contains ':' = false) :
    _cert E sig k = .ok k ∧
    (∀ (E2 : Externals) (sig2 : Node) (k2 : String),
      _cert E2 sig2 k2 = .error .keyNotFound →
      E2.isfile k2 = false ∧ k2.data.contains ':' = true ∧
      _find_matching_cert E2 sig2 k2 = .ok none) := by
  constructor
  · unfold _cert
    rw [if_neg (by rw [hf]; simp), if_neg (by rw [hc]; simp)]
  · intro E2 sig2 k2 h
    unfold _cert at h
    by_cases h1 : E2.isfile k2
    · rw [if_pos h1] at h
      exact Except.noConfusion h
    · rw [if_neg h1] at h
      by_cases h2 : k2.data.contains ':'
      · rw [if_pos h2] at h
        refine ⟨by simpa using h1, by simpa using h2, ?_⟩
        match hm : _find_matching_cert E2 sig2 k2 with
        | .error e =>
            rw [hm] at h
            have he : e = Err.keyNotFound := Except.error.inj h
            subst he
            have := certDictAux_ne_keyNotFound E2 sig2
              (findTagPaths sig2 tagX509Certificate) []
            unfold _find_matching_cert at hm
            unfold CertDict at hm
            match hcd : certDictAux E2 sig2 (findTagPaths sig2 tagX509Certificate) [] with
            | .error e2 =>
                rw [hcd] at hm
                have : e2 = Err.keyNotFound := Except.error.inj hm
                subst this
                exact absurd hcd (certDictAux_ne_keyNotFound E2 sig2 _ _)
            | .ok certs =>
                rw [hcd] at hm
                exact Except.noConfusion hm
        | .ok (some cd) => rw [hm] at h; exact Except.noConfusion h
        | .ok none => rfl
      · rw [if_neg h2] at h
        exact Except.noConfusion h

/-- C10 witness: with no file, the plain-PEM branch returns the keyspec
    itself for a concrete keyspec without ':'. -/
theorem C10_cert_resolution_witness :
    _cert
      { isfile := fun _ => false, readFileStr := fun _ => "", rsaParse := fun _ => none,
        hashFn := fun _ _ => [], c14nSer := fun _ _ _ _ => "", name2cp := fun _ => none }
      (.elem "r" [] none [] none) "somepem" = .ok "somepem" :=
  (C10_cert_resolution
    { isfile := fun _ => false, readFileStr := fun _ => "", rsaParse := fun _ => none,
      hashFn := fun _ _ => [], c14nSer := fun _ _ _ _ => "", name2cp := fun _ => none }
    (.elem "r" [] none [] none) "somepem" rfl (by decide)).1

/- ------------------------------------------------------------------
   `_process_references` (lines 204-248): dereference, transform chain,
   digest, hash-consistency bookkeeping, DigestValue write-back.
   ------------------------------------------------------------------ -/

/-- The Transform loop of one Reference: `object = _transform(_alg(tr),
    object, tr)` over the Reference's Transform descendants in order. -/
def applyTransforms (E : Externals) (ref : Node) :
    List (List Nat) → XObj → Except Err XObj
  | [], ob => .ok ob
  | trp :: rest, ob =>
      match getAt ref trp with
      | none => .error .attributeError
      | some tr =>
          match _transform E (_alg tr) ob (some tr) with
          | .ok ob2 => applyTransforms E ref rest ob2
          | .error e => .error e

/-- Dereference a Reference (by its absolute path) and run its Transform
    chain (lines 212-228). -/
def refObject (E : Externals) (idAttrs : List String) (t : Node) (rp : List Nat) :
    Except Err XObj :=
  match getAt t rp with
  | none => .error .attributeError
  | some ref =>
      match dereference idAttrs t (ref.getAttr "URI") with
      | .error e => .error e
      | .ok obj0 => applyTransforms E ref (findTagPaths ref tagTransform) (.tree obj0)

/-- `this_hash_alg = (_alg(dm).split("#"))[1]` with the code's failure
    modes: no DigestMethod is the explicit XMLSigException, a missing
    Algorithm attribute is an AttributeError on None.split, a fragment-free
    URI an IndexError. -/
def refHashNameOfRef (ref : Node) : Except Err String :=
  match findFirst ref tagDigestMethod with
  | none => .error .missingElement
  | some dm =>
      match _alg dm with
      | none => .error .attributeError
      | some alg =>
          match (pySplit '#' alg.data)[1]? with
          | none => .error .indexError
          | some w => .ok (String.mk w)

def refHashNameE (t : Node) (rp : List Nat) : Except Err String :=
  match getAt t rp with
  | none => .error .attributeError
  | some ref => refHashNameOfRef ref

/-- One iteration of the Reference loop: `hash_alg = hash_alg or
    this_hash_alg` (Python `or`: None and '' are falsy), the consistency
    check, the digest, and the in-place DigestValue write. -/
def procRef (E : Externals) (idAttrs : List String) (t : Node) (rp : List Nat)
    (hash_alg : Option String) : Except Err (Node × Option String) :=
  match refObject E idAttrs t rp with
  | .error e => .error e
  | .ok ob =>
      match refHashNameE t rp with
      | .error e => .error e
      | .ok this_hash =>
          let hash2 : String :=
            match hash_alg with
            | none => this_hash
            | some hprev => if hprev = "" then this_hash else hprev
          if this_hash ≠ hash2 then .error .inconsistentHash
          else
            match _digest E ob (some this_hash) with
            | .error e => .error e
            | .ok dgst =>
                match getAt t rp with
                | none => .error .attributeError
                | some ref =>
                    match (findTagPaths ref tagDigestValue).head? with
                    | none => .error .typeError
                    | some dvp => .ok (setTextAt t (rp ++ dvp) dgst, some hash2)

def prLoop (E : Externals) (idAttrs : List String) :
    List (List Nat) → Node → Option String → Except Err (Node × Option String)
  | [], t, h => .ok (t, h)
  | rp :: rest, t, h =>
      match procRef E idAttrs t rp h with
      | .error e => .error e
      | .ok (t2, h2) => prLoop E idAttrs rest t2 h2

/-- `_process_references(t, sig)`: the Reference list is computed once from
    the Signature and the loop threads the (mutated) document. Returns the
    document and the final hash_alg (None when there were no References). -/
def _process_references (E : Externals) (idAttrs : List String) (t : Node) (sp : List Nat) :
    Except Err (Node × Option String) :=
  match getAt t sp with
  | none => .error .attributeError
  | some sig =>
      prLoop E idAttrs ((findTagPaths sig tagReference).map (fun q => sp ++ q)) t none

/- ------------------------------------------------------------------
   `_create_signature_digest` and the verify orchestrator.
   ------------------------------------------------------------------ -/

/-- The CanonicalizationMethod lookup and transform of
    `_create_signature_digest` (lines 513-516): a missing element crashes
    inside `_alg(None)` before the assert; a present element without an
    Algorithm attribute trips the assert (MissingElement). -/
def siTransformed (E : Externals) (si : Node) : Except Err XObj :=
  match findFirst si tagCanonicalizationMethod with
  | none => .error .attributeError
  | some cm =>
      match _alg cm with
      | none => .error .missingElement
      | some alg => _transform E (some alg) (.tree si) none

/-- `_create_signature_digest(si, hash_alg)`: c14n the SignedInfo per its
    declared method, digest, return the base64-decoded raw digest. -/
def _create_signature_digest (E : Externals) (si : Node) (hash_alg : Option String) :
    Except Err (List Nat) :=
  match siTransformed E si with
  | .error e => .error e
  | .ok sic =>
      match _digest E sic hash_alg with
      | .error e => .error e
      | .ok dg =>
          match b64d dg with
          | none => .error .binasciiError
          | some raw => .ok raw

/-- One Signature of the verify loop (lines 388-411): SignatureValue text,
    certificate, key, raw public image of the decoded SignatureValue,
    reference processing, SignedInfo digest, padded block with
    `sz = key.size() + 1` and `do_pad = True`, byte-for-byte comparison. -/
def verifySig (E : Externals) (idAttrs : List String) (keyspec : String) (t : Node)
    (sp : List Nat) : Except Err Node :=
  match getAt t sp with
  | none => .error .attributeError
  | some sig =>
      match findTextDesc sig tagSignatureValue with
      | none => .error .missingElement
      | some sv =>
          match _cert E sig keyspec with
          | .error e => .error e
          | .ok pem =>
              match E.rsaParse pem with
              | none => .error .parseError
              | some key =>
                  match b64d sv with
                  | none => .error .binasciiError
                  | some svb =>
                      match _process_references E idAttrs t sp with
                      | .error e => .error e
                      | .ok (t2, hashOpt) =>
                          match getAt t2 sp with
                          | none => .error .attributeError
                          | some sig2 =>
                              match findFirst sig2 tagSignedInfo with
                              | none => .error .attributeError
                              | some si =>
                                  match _create_signature_digest E si hashOpt with
                                  | .error e => .error e
                                  | .ok bdg =>
                                      match hashOpt with
                                      | none => .error .unknownHashAlgorithm
                                      | some h =>
                                          match _signed_value bdg (key.size + 1) true h with
                                          | .error e => .error e
                                          | .ok actual =>
                                              if key.pub svb = actual then .ok t2
                                              else .error .signatureMismatch

def verifyLoop (E : Externals) (idAttrs : List String) (keyspec : String) :
    Node → List (List Nat) → Bool → Except Err (Node × Bool)
  | t, [], v => .ok (t, v)
  | t, sp :: rest, _ =>
      match verifySig E idAttrs keyspec t sp with
      | .error e => .error e
      | .ok t2 => verifyLoop E idAttrs keyspec t2 rest true

/-- `verify(t, keyspec)`: iterate over every Signature descendant (list
    computed up front), `validated` starts False and becomes True after
    each verified signature; the mutated document is returned alongside. -/
def verify (E : Externals) (idAttrs : List String) (t : Node) (keyspec : String) :
    Except Err (Node × Bool) :=
  verifyLoop E idAttrs keyspec t (findTagPaths t tagSignature) false

/- ------------------------------------------------------------------
   A concrete verifying document and external instantiation.
   ------------------------------------------------------------------ -/

/-- The 255-byte padded block for a 2048-bit key, SHA-1 DigestInfo prefix
    and the 3-byte digest [1,2,3] of the example hash. -/
def exBlock : List Nat :=
  1 :: List.replicate 235 255 ++
    0 :: ([0x30, 0x21, 0x30, 0x09, 0x06, 0x05, 0x2b, 0x0e, 0x03, 0x02, 0x1a, 0x05,
      0x00, 0x04, 0x14] ++ [1, 2, 3])

def exKey : RSAKey := { size := 2047, pub := fun _ => exBlock }

def exExt : Externals :=
  { isfile := fun _ => false
    readFileStr := fun _ => ""
    rsaParse := fun _ => some exKey
    hashFn := fun _ _ => [1, 2, 3]
    c14nSer := fun _ _ _ _ => "<x/>"
    name2cp := fun _ => none }

def exSI : Node :=
  .elem tagSignedInfo [] none
    [ .elem tagCanonicalizationMethod [("Algorithm", TRANSFORM_C14N_INCLUSIVE)] none [] none,
      .elem tagReference [("URI", "")] none
        [ .elem tagTransform [("Algorithm", TRANSFORM_C14N_INCLUSIVE)] none [] none,
          .elem tagDigestMethod
            [("Algorithm", "http://www.w3.org/2000/09/xmldsig#sha1")] none [] none,
          .elem tagDigestValue [] (some "stale") [] none ] none ] none

def exSig : Node :=
  .elem tagSignature [] none
    [ exSI, .elem tagSignatureValue [] (some "AA==") [] none ] none

def exDoc : Node := .elem "root" [] none [exSig] none

/-- The example document after verify: the stale DigestValue text has been
    replaced by the recomputed digest. -/
def exDoc2 : Node := setTextAt exDoc [0, 0, 1, 2] "AQID"

/- ------------------------------------------------------------------
   C2: verify's return value.
   ------------------------------------------------------------------ -/

theorem verifyLoop_ok_flag (E : Externals) (ids : List String) (k : String) :
    ∀ (sps : List (List Nat)) (t : Node) (v : Bool) (t2 : Node) (b : Bool),
    verifyLoop E ids k t sps v = .ok (t2, b) →
    (sps = [] ∧ b = v ∧ t2 = t) ∨ (sps ≠ [] ∧ b = true)
  | [], t, v, t2, b, h => by
      left
      have h2 := Except.ok.inj h
      exact ⟨rfl, (congrArg Prod.snd h2).symm, (congrArg Prod.fst h2).symm⟩
  | sp :: rest, t, v, t2, b, h => by
      right
      refine ⟨by simp, ?_⟩
      unfold verifyLoop at h
      match hv : verifySig E ids k t sp with
      | .error e => rw [hv] at h; exact Except.noConfusion h
      | .ok t3 =>
          simp only [hv] at h
          rcases verifyLoop_ok_flag E ids k rest t3 true t2 b h with ⟨_, hb, _⟩ | ⟨_, hb⟩
          · exact hb
          · exact hb

/-- C2: verify returns false exactly when the document has no Signature
    descendants; with signatures present a normal return is always true
    (and any per-signature failure propagates as an error, nothing is
    caught in the loop). -/
theorem C2_verify_result (E : Externals) (ids : List String) (t : Node) (k : String) :
    (findTagPaths t tagSignature = [] → verify E ids t k = .ok (t, false)) ∧
    (∀ (t2 : Node) (b : Bool), verify E ids t k = .ok (t2, b) →
      (b = false ↔ findTagPaths t tagSignature = [])) := by
  constructor
  · intro h
    unfold verify
    rw [h]
    rfl
  · intro t2 b h
    unfold verify at h
    rcases verifyLoop_ok_flag E ids k (findTagPaths t tagSignature) t false t2 b h with
      ⟨he, hb, _⟩ | ⟨hne, hb⟩
    · rw [hb, he]
      simp
    · constructor
      · intro hbf
        rw [hbf] at hb
        exact absurd hb (by simp)
      · intro hse
        exact absurd hse hne

/-- C2 witness: a document with no Signature gives ok-false; the iff holds
    on it. -/
theorem C2_verify_result_witness :
    verify exExt _id_attributes (.elem "r" [] none [] none) "k" =
      .ok (.elem "r" [] none [] none, false) ∧
    ((false = false) ↔ findTagPaths (.elem "r" [] none [] none) tagSignature = []) :=
  ⟨(C2_verify_result exExt _id_attributes (.elem "r" [] none [] none) "k").1 rfl,
   (C2_verify_result exExt _id_attributes (.elem "r" [] none [] none) "k").2 _ false
     ((C2_verify_result exExt _id_attributes (.elem "r" [] none [] none) "k").1 rfl)⟩

/-- C5 counterexample: verify runs to completion (returning true) on the
    example document and the DigestValue text of the caller's document has
    been overwritten in place ("stale" before the call, the recomputed
    digest "AQID" in the returned/mutated tree): the Reference Processor
    does not confine DigestValue writes to a working copy. -/
theorem C5_counterexample_digestvalue_overwritten :
    (getAt exDoc [0, 0, 1, 2]).bind Node.textOf = some "stale" ∧
    verify exExt _id_attributes exDoc "k" = .ok (exDoc2, true) ∧
    (getAt exDoc2 [0, 0, 1, 2]).bind Node.textOf = some "AQID" ∧
    ("AQID" : String) ≠ "stale" :=
  ⟨rfl, rfl, rfl, by decide⟩

/- ------------------------------------------------------------------
   Frame reasoning: `setTextAt` changes nothing but one text field.
   `eraseTexts` erases every text field; `eraseDV` erases only the text
   of DigestValue elements.
   ------------------------------------------------------------------ -/

mutual

def eraseTexts : Node → Node
  | .elem tg a _ cs tl => .elem tg a none (eraseTextsL cs) tl
  | .comment _ tl => .comment none tl
  | .pi _ tl => .pi none tl

def eraseTextsL : List Node → List Node
  | [] => []
  | c :: rest => eraseTexts c :: eraseTextsL rest

end

mutual

def eraseDV : Node → Node
  | .elem tg a tx cs tl =>
      .elem tg a (if tg = tagDigestValue then none else tx) (eraseDVL cs) tl
  | n => n

def eraseDVL : List Node → List Node
  | [] => []
  | c :: rest => eraseDV c :: eraseDVL rest

end

theorem getElem?_eraseTextsL : ∀ (cs : List Node) (i : Nat),
    (eraseTextsL cs)[i]? = (cs[i]?).map eraseTexts
  | [], i => by simp [eraseTextsL]
  | c :: rest, 0 => by simp [eraseTextsL]
  | c :: rest, i + 1 => by
      simp only [eraseTextsL, List.getElem?_cons_succ]
      exact getElem?_eraseTextsL rest i

theorem eraseTextsL_set : ∀ (cs : List Node) (i : Nat) (c2 : Node),
    eraseTextsL (cs.set i c2) = (eraseTextsL cs).set i (eraseTexts c2)
  | [], i, c2 => by simp [eraseTextsL]
  | c :: rest, 0, c2 => by simp [List.set, eraseTextsL]
  | c :: rest, i + 1, c2 => by
      simp only [List.set, eraseTextsL]
      rw [eraseTextsL_set rest i c2]

theorem getElem?_eraseDVL : ∀ (cs : List Node) (i : Nat),
    (eraseDVL cs)[i]? = (cs[i]?).map eraseDV
  | [], i => by simp [eraseDVL]
  | c :: rest, 0 => by simp [eraseDVL]
  | c :: rest, i + 1 => by
      simp only [eraseDVL, List.getElem?_cons_succ]
      exact getElem?_eraseDVL rest i

theorem eraseDVL_set : ∀ (cs : List Node) (i : Nat) (c2 : Node),
    eraseDVL (cs.set i c2) = (eraseDVL cs).set i (eraseDV c2)
  | [], i, c2 => by simp [eraseDVL]
  | c :: rest, 0, c2 => by simp [List.set, eraseDVL]
  | c :: rest, i + 1, c2 => by
      simp only [List.set, eraseDVL]
      rw [eraseDVL_set rest i c2]

theorem set_self_of_getElem : ∀ (l : List Node) (i : Nat) (c : Node),
    l[i]? = some c → l.set i c = l
  | [], i, c => by simp
  | a :: rest, 0, c => by
      intro h
      simp only [List.getElem?_cons_zero, Option.some.injEq] at h
      subst h
      rfl
  | a :: rest, i + 1, c => by
      intro h
      simp only [List.getElem?_cons_succ] at h
      simp only [List.set]
      rw [set_self_of_getElem rest i c h]

theorem eraseTexts_setTextAt : ∀ (p : List Nat) (t : Node) (s : String),
    eraseTexts (setTextAt t p s) = eraseTexts t
  | [], t, s => by cases t <;> rfl
  | i :: p, t, s => by
      match t with
      | .elem tg a tx cs tl =>
          rcases hc : cs[i]? with _ | c
          · simp [setTextAt, hc]
          · simp only [setTextAt, hc]
            simp only [eraseTexts, eraseTextsL_set, eraseTexts_setTextAt p c s]
            rw [set_self_of_getElem _ i _ (by rw [getElem?_eraseTextsL, hc]; rfl)]
      | .comment tx tl => rfl
      | .pi tx tl => rfl

theorem tagOf_eq_elem (n : Node) (tg : String) (h : n.tagOf = some tg) :
    ∃ a tx cs tl, n = .elem tg a tx cs tl := by
  match n with
  | .elem t a tx cs tl =>
      refine ⟨a, tx, cs, tl, ?_⟩
      have : t = tg := by simpa [Node.tagOf] using h
      rw [this]
  | .comment _ _ => simp [Node.tagOf] at h
  | .pi _ _ => simp [Node.tagOf] at h

theorem eraseDV_setTextAt : ∀ (p : List Nat) (t n : Node) (s : String),
    getAt t p = some n → n.tagOf = some tagDigestValue →
    eraseDV (setTextAt t p s) = eraseDV t
  | [], t, n, s, hg, ht => by
      have he : t = n := by simpa [getAt] using hg
      subst he
      obtain ⟨a, tx, cs, tl, he2⟩ := tagOf_eq_elem t tagDigestValue ht
      subst he2
      simp [setTextAt, eraseDV]
  | i :: p, t, n, s, hg, ht => by
      match t with
      | .elem tg a tx cs tl =>
          rcases hc : cs[i]? with _ | c
          · simp [setTextAt, hc]
          · simp only [getAt, hc] at hg
            simp only [setTextAt, hc]
            simp only [eraseDV, eraseDVL_set, eraseDV_setTextAt p c n s hg ht]
            rw [set_self_of_getElem _ i _ (by rw [getElem?_eraseDVL, hc]; rfl)]
      | .comment tx tl => simp [getAt] at hg
      | .pi tx tl => simp [getAt] at hg

/- ------------------------------------------------------------------
   Reads through `eraseTexts` (tags, attributes and structure are
   untouched by DigestValue writes).
   ------------------------------------------------------------------ -/

theorem getAt_eraseTexts : ∀ (p : List Nat) (t : Node),
    getAt (eraseTexts t) p = (getAt t p).map eraseTexts
  | [], t => by simp [getAt]
  | i :: p, t => by
      match t with
      | .elem tg a tx cs tl =>
          simp only [eraseTexts, getAt, getElem?_eraseTextsL]
          rcases hc : cs[i]? with _ | c
          · simp
          · simp only [Option.map_some]
            exact getAt_eraseTexts p c
      | .comment tx tl => simp [eraseTexts, getAt]
      | .pi tx tl => simp [eraseTexts, getAt]

mutual

theorem findTagPaths_eraseTexts : ∀ (n : Node) (tg : String),
    findTagPaths (eraseTexts n) tg = findTagPaths n tg
  | .elem t a tx cs tl, tg => by
      simp only [eraseTexts, findTagPaths]
      exact findTagInList_eraseTexts tg 0 cs
  | .comment tx tl, tg => rfl
  | .pi tx tl, tg => rfl

theorem findTagInList_eraseTexts : ∀ (tg : String) (i : Nat) (cs : List Node),
    findTagInList tg i (eraseTextsL cs) = findTagInList tg i cs
  | tg, i, [] => rfl
  | tg, i, c :: rest => by
      simp only [eraseTextsL, findTagInList]
      rw [findTagPaths_eraseTexts c tg, findTagInList_eraseTexts tg (i + 1) rest,
        show tagHit (eraseTexts c) tg i = tagHit c tg i from by cases c <;> rfl]

end

theorem getAttr_eraseTexts (n : Node) (k : String) :
    (eraseTexts n).getAttr k = n.getAttr k := by
  cases n <;> rfl

theorem findFirst_eraseTexts (n : Node) (tg : String) :
    findFirst (eraseTexts n) tg = (findFirst n tg).map eraseTexts := by
  unfold findFirst
  rw [findTagPaths_eraseTexts]
  rcases hh : (findTagPaths n tg).head? with _ | p
  · rfl
  · show getAt (eraseTexts n) p = (getAt n p).map eraseTexts
    exact getAt_eraseTexts p n

theorem refHashNameOfRef_eraseTexts (ref : Node) :
    refHashNameOfRef (eraseTexts ref) = refHashNameOfRef ref := by
  unfold refHashNameOfRef
  rw [findFirst_eraseTexts]
  rcases hf : findFirst ref tagDigestMethod with _ | dm
  · rfl
  · dsimp only [Option.map]
    rw [show _alg (eraseTexts dm) = _alg dm from by unfold _alg; rw [getAttr_eraseTexts]]

theorem refHashNameE_eraseTexts (t : Node) (rp : List Nat) :
    refHashNameE (eraseTexts t) rp = refHashNameE t rp := by
  unfold refHashNameE
  rw [getAt_eraseTexts]
  rcases hg : getAt t rp with _ | ref
  · rfl
  · show refHashNameOfRef (eraseTexts ref) = refHashNameOfRef ref
    exact refHashNameOfRef_eraseTexts ref

theorem refHashNameE_congr (a b : Node) (rp : List Nat) (h : eraseTexts a = eraseTexts b) :
    refHashNameE a rp = refHashNameE b rp := by
  rw [← refHashNameE_eraseTexts a rp, h, refHashNameE_eraseTexts]

/- ------------------------------------------------------------------
   Soundness of the tag search: found paths address elements with the
   searched tag. Used to show DigestValue writes touch only DigestValue
   elements.
   ------------------------------------------------------------------ -/

theorem getAt_append : ∀ (p q : List Nat) (t : Node),
    getAt t (p ++ q) = (getAt t p).bind (fun m => getAt m q)
  | [], q, t => by simp [getAt]
  | i :: p, q, t => by
      match t with
      | .elem tg a tx cs tl =>
          simp only [List.cons_append, getAt]
          rcases hc : cs[i]? with _ | c
          · rfl
          · exact getAt_append p q c
      | .comment tx tl => simp [getAt]
      | .pi tx tl => simp [getAt]

theorem mem_of_head? {α : Type} (l : List α) (a : α) (h : l.head? = some a) : a ∈ l := by
  cases l with
  | nil => simp at h
  | cons x rest =>
      simp only [List.head?_cons, Option.some.injEq] at h
      rw [h]
      simp

theorem findTagInList_sound : ∀ (tg : String) (i : Nat) (cs : List Node) (p : List Nat),
    p ∈ findTagInList tg i cs →
    ∃ j, i ≤ j ∧ ∃ q, p = j :: q ∧ ∃ c, cs[j - i]? = some c ∧
      ((q = [] ∧ c.tagOf = some tg) ∨ q ∈ findTagPaths c tg)
  | tg, i, [], p, hp => by simp [findTagInList] at hp
  | tg, i, c :: rest, p, hp => by
      rw [findTagInList] at hp
      simp only [List.mem_append] at hp
      rcases hp with (hp | hp) | hp
      · match c with
        | .elem ct ca ctx ccs ctl =>
            simp only [tagHit] at hp
            by_cases hct : ct = tg
            · rw [if_pos hct] at hp
              simp only [List.mem_singleton] at hp
              exact ⟨i, Nat.le_refl i, [], hp, .elem ct ca ctx ccs ctl,
                by simp, Or.inl ⟨rfl, by simp [Node.tagOf, hct]⟩⟩
            · rw [if_neg hct] at hp
              simp at hp
        | .comment ctx ctl => simp [tagHit] at hp
        | .pi ctx ctl => simp [tagHit] at hp
      · rw [List.mem_map] at hp
        obtain ⟨q, hq, hpq⟩ := hp
        exact ⟨i, Nat.le_refl i, q, hpq.symm, c, by simp, Or.inr hq⟩
      · obtain ⟨j, hij, q, hpq, d, hd, hrest⟩ := findTagInList_sound tg (i + 1) rest p hp
        refine ⟨j, by omega, q, hpq, d, ?_, hrest⟩
        have hji : j - i = (j - (i + 1)) + 1 := by omega
        rw [hji]
        simpa using hd

theorem findTagPaths_sound : ∀ (p : List Nat) (n : Node) (tg : String),
    p ∈ findTagPaths n tg → ∃ m, getAt n p = some m ∧ m.tagOf = some tg
  | p, .elem t a tx cs tl, tg => fun hp => by
      rw [findTagPaths] at hp
      obtain ⟨j, _, q, hpq, c, hc, hrest⟩ := findTagInList_sound tg 0 cs p hp
      simp only [Nat.sub_zero] at hc
      subst hpq
      rcases hrest with ⟨hq, htag⟩ | hq
      · subst hq
        exact ⟨c, by simp [getAt, hc], htag⟩
      · have hlt : q.length < (j :: q).length := by simp
        obtain ⟨m, hm, hmt⟩ := findTagPaths_sound q c tg hq
        exact ⟨m, by simp [getAt, hc, hm], hmt⟩
  | p, .comment tx tl, tg => fun hp => by simp [findTagPaths] at hp
  | p, .pi tx tl, tg => fun hp => by simp [findTagPaths] at hp
termination_by p => p.length

/- ------------------------------------------------------------------
   Frame lemmas for `procRef` / `prLoop` / `verify`.
   ------------------------------------------------------------------ -/

theorem procRef_frame (E : Externals) (ids : List String) (t : Node) (rp : List Nat)
    (h : Option String) (t2 : Node) (h2 : Option String)
    (hok : procRef E ids t rp h = .ok (t2, h2)) :
    eraseDV t2 = eraseDV t ∧ eraseTexts t2 = eraseTexts t := by
  unfold procRef at hok
  rcases ho : refObject E ids t rp with e | ob
  · rw [ho] at hok; exact Except.noConfusion hok
  · rw [ho] at hok
    rcases hn : refHashNameE t rp with e | this_hash
    · rw [hn] at hok
      exact Except.noConfusion hok
    · simp only [hn] at hok
      split at hok
      · exact Except.noConfusion hok
      · rcases hd : _digest E ob (some this_hash) with e | dgst
        · rw [hd] at hok
          exact Except.noConfusion hok
        · simp only [hd] at hok
          rcases hg : getAt t rp with _ | ref
          · rw [hg] at hok
            exact Except.noConfusion hok
          · simp only [hg] at hok
            rcases hv : (findTagPaths ref tagDigestValue).head? with _ | dvp
            · rw [hv] at hok
              exact Except.noConfusion hok
            · simp only [hv] at hok
              have ht2 : t2 = setTextAt t (rp ++ dvp) dgst :=
                (congrArg Prod.fst (Except.ok.inj hok)).symm
              subst ht2
              obtain ⟨m, hm, hmt⟩ :=
                findTagPaths_sound dvp ref tagDigestValue (mem_of_head? _ _ hv)
              have hgm : getAt t (rp ++ dvp) = some m := by
                rw [getAt_append, hg]
                exact hm
              exact ⟨eraseDV_setTextAt (rp ++ dvp) t m dgst hgm hmt,
                eraseTexts_setTextAt (rp ++ dvp) t dgst⟩

theorem prLoop_frame (E : Externals) (ids : List String) :
    ∀ (rps : List (List Nat)) (t : Node) (h : Option String) (t2 : Node) (h2 : Option String),
    prLoop E ids rps t h = .ok (t2, h2) →
    eraseDV t2 = eraseDV t ∧ eraseTexts t2 = eraseTexts t
  | [], t, h, t2, h2, hok => by
      have h3 := Except.ok.inj hok
      have : t2 = t := (congrArg Prod.fst h3).symm
      rw [this]
      exact ⟨rfl, rfl⟩
  | rp :: rest, t, h, t2, h2, hok => by
      unfold prLoop at hok
      rcases hs : procRef E ids t rp h with e | pr
      · rw [hs] at hok; exact Except.noConfusion hok
      · rcases pr with ⟨t3, h3⟩
        simp only [hs] at hok
        obtain ⟨hdv1, htx1⟩ := procRef_frame E ids t rp h t3 h3 hs
        obtain ⟨hdv2, htx2⟩ := prLoop_frame E ids rest t3 h3 t2 h2 hok
        exact ⟨hdv2.trans hdv1, htx2.trans htx1⟩

theorem _process_references_frame (E : Externals) (ids : List String) (t : Node)
    (sp : List Nat) (t2 : Node) (h2 : Option String)
    (hok : _process_references E ids t sp = .ok (t2, h2)) :
    eraseDV t2 = eraseDV t ∧ eraseTexts t2 = eraseTexts t := by
  unfold _process_references at hok
  rcases hg : getAt t sp with _ | sig
  · rw [hg] at hok; exact Except.noConfusion hok
  · simp only [hg] at hok
    exact prLoop_frame E ids _ t none t2 h2 hok

theorem verifySig_frame (E : Externals) (ids : List String) (k : String) (t : Node)
    (sp : List Nat) (t2 : Node) (hok : verifySig E ids k t sp = .ok t2) :
    eraseDV t2 = eraseDV t := by
  unfold verifySig at hok
  rcases hg : getAt t sp with _ | sig
  · rw [hg] at hok; exact Except.noConfusion hok
  · simp only [hg] at hok
    rcases hsv : findTextDesc sig tagSignatureValue with _ | sv
    · rw [hsv] at hok
      exact Except.noConfusion hok
    · simp only [hsv] at hok
      rcases hc : _cert E sig k with e | pem
      · rw [hc] at hok
        exact Except.noConfusion hok
      · simp only [hc] at hok
        rcases hk : E.rsaParse pem with _ | key
        · rw [hk] at hok
          exact Except.noConfusion hok
        · simp only [hk] at hok
          rcases hb : b64d sv with _ | svb
          · rw [hb] at hok
            exact Except.noConfusion hok
          · simp only [hb] at hok
            rcases hpr : _process_references E ids t sp with e | pr
            · rw [hpr] at hok
              exact Except.noConfusion hok
            · rcases pr with ⟨t3, hashOpt⟩
              simp only [hpr] at hok
              have hframe := (_process_references_frame E ids t sp t3 hashOpt hpr).1
              rcases hg2 : getAt t3 sp with _ | sig2
              · rw [hg2] at hok
                exact Except.noConfusion hok
              · simp only [hg2] at hok
                rcases hsi : findFirst sig2 tagSignedInfo with _ | si
                · rw [hsi] at hok
                  exact Except.noConfusion hok
                · simp only [hsi] at hok
                  rcases hcd : _create_signature_digest E si hashOpt with e | bdg
                  · rw [hcd] at hok
                    exact Except.noConfusion hok
                  · simp only [hcd] at hok
                    rcases hashOpt with _ | h
                    · exact Except.noConfusion hok
                    · simp only at hok
                      rcases hsvv : _signed_value bdg (key.size + 1) true h with e | actual
                      · rw [hsvv] at hok
                        exact Except.noConfusion hok
                      · simp only [hsvv] at hok
                        split at hok
                        · have : t2 = t3 := (Except.ok.inj hok).symm
                          rw [this]
                          exact hframe
                        · exact Except.noConfusion hok

theorem verifyLoop_frame (E : Externals) (ids : List String) (k : String) :
    ∀ (sps : List (List Nat)) (t : Node) (v : Bool) (t2 : Node) (b : Bool),
    verifyLoop E ids k t sps v = .ok (t2, b) → eraseDV t2 = eraseDV t
  | [], t, v, t2, b, hok => by
      have h3 := Except.ok.inj hok
      have : t2 = t := (congrArg Prod.fst h3).symm
      rw [this]
  | sp :: rest, t, v, t2, b, hok => by
      unfold verifyLoop at hok
      rcases hs : verifySig E ids k t sp with e | t3
      · rw [hs] at hok; exact Except.noConfusion hok
      · simp only [hs] at hok
        exact (verifyLoop_frame E ids k rest t3 true t2 b hok).trans
          (verifySig_frame E ids k t sp t3 hs)

/-- C5 amended: the Reference Processor writes DigestValue texts into the
    caller's document itself (no working copy); on any verify call that
    returns, the returned (in-place mutated) document differs from the
    input at most in the text of DigestValue elements — everything else
    (structure, tags, attributes, tails, and all other text) is unchanged. -/
theorem C5_verify_mutates_only_digest_values (E : Externals) (ids : List String)
    (t : Node) (k : String) (t2 : Node) (b : Bool)
    (h : verify E ids t k = .ok (t2, b)) : eraseDV t2 = eraseDV t := by
  unfold verify at h
  exact verifyLoop_frame E ids k (findTagPaths t tagSignature) t false t2 b h

/-- C5 witness: on the concrete example run the only change is the
    DigestValue text. -/
theorem C5_verify_mutates_only_digest_values_witness :
    eraseDV exDoc2 = eraseDV exDoc :=
  C5_verify_mutates_only_digest_values exExt _id_attributes exDoc "k" exDoc2 true rfl

/- ------------------------------------------------------------------
   C8: hash-name bookkeeping of the Reference loop.
   ------------------------------------------------------------------ -/

theorem hashlibNames_ne_empty : ∀ s ∈ hashlibNames, s ≠ "" := by
  intro s hs
  simp only [hashlibNames, List.mem_cons, List.mem_singleton] at hs
  rcases hs with rfl | rfl | rfl | rfl | rfl | rfl | h
  · decide
  · decide
  · decide
  · decide
  · decide
  · decide
  · simp at h

theorem _digest_ok_mem (E : Externals) (ob : XObj) (h : String) (dg : String)
    (hok : _digest E ob (some h) = .ok dg) : h ∈ hashlibNames := by
  rw [_digest.eq_def] at hok
  simp only [] at hok
  by_cases hc : hashlibNames.contains h
  · exact List.mem_of_elem_eq_true hc
  · rw [if_neg (by simpa using hc)] at hok
    exact Except.noConfusion hok

theorem procRef_step_some (E : Externals) (ids : List String) (t : Node) (rp : List Nat)
    (hh : String) (t2 : Node) (h2 : Option String) (hhn : hh ≠ "")
    (hok : procRef E ids t rp (some hh) = .ok (t2, h2)) :
    h2 = some hh ∧ refHashNameE t rp = .ok hh := by
  unfold procRef at hok
  rcases ho : refObject E ids t rp with e | ob
  · rw [ho] at hok
    exact Except.noConfusion hok
  · rw [ho] at hok
    rcases hn : refHashNameE t rp with e | this
    · simp only [hn] at hok
      exact Except.noConfusion hok
    · simp only [hn, if_neg hhn] at hok
      by_cases hte : this = hh
      · subst hte
        rw [if_neg (by simp)] at hok
        rcases hd : _digest E ob (some this) with e | dgst
        · rw [hd] at hok
          exact Except.noConfusion hok
        · simp only [hd] at hok
          rcases hg : getAt t rp with _ | ref
          · rw [hg] at hok
            exact Except.noConfusion hok
          · simp only [hg] at hok
            rcases hv : (findTagPaths ref tagDigestValue).head? with _ | dvp
            · rw [hv] at hok
              exact Except.noConfusion hok
            · simp only [hv] at hok
              refine ⟨(congrArg Prod.snd (Except.ok.inj hok)).symm, ?_⟩
              simp [hn]
      · rw [if_pos (by simpa using hte)] at hok
        exact Except.noConfusion hok

theorem procRef_step_none (E : Externals) (ids : List String) (t : Node) (rp : List Nat)
    (t2 : Node) (h2 : Option String)
    (hok : procRef E ids t rp none = .ok (t2, h2)) :
    ∃ h1, h2 = some h1 ∧ h1 ∈ hashlibNames ∧ refHashNameE t rp = .ok h1 := by
  unfold procRef at hok
  rcases ho : refObject E ids t rp with e | ob
  · rw [ho] at hok
    exact Except.noConfusion hok
  · rw [ho] at hok
    rcases hn : refHashNameE t rp with e | this
    · simp only [hn] at hok
      exact Except.noConfusion hok
    · simp only [hn] at hok
      rw [if_neg (by simp)] at hok
      rcases hd : _digest E ob (some this) with e | dgst
      · rw [hd] at hok
        exact Except.noConfusion hok
      · simp only [hd] at hok
        rcases hg : getAt t rp with _ | ref
        · rw [hg] at hok
          exact Except.noConfusion hok
        · simp only [hg] at hok
          rcases hv : (findTagPaths ref tagDigestValue).head? with _ | dvp
          · rw [hv] at hok
            exact Except.noConfusion hok
          · simp only [hv] at hok
            refine ⟨this, (congrArg Prod.snd (Except.ok.inj hok)).symm,
              _digest_ok_mem E ob this dgst hd, ?_⟩
            simp [hn]

theorem prLoop_some (E : Externals) (ids : List String) :
    ∀ (rps : List (List Nat)) (t : Node) (hh : String) (t2 : Node) (hOpt : Option String),
    hh ∈ hashlibNames →
    prLoop E ids rps t (some hh) = .ok (t2, hOpt) →
    hOpt = some hh ∧ ∀ rp ∈ rps, refHashNameE t rp = .ok hh
  | [], t, hh, t2, hOpt, _, hok => by
      have h3 := Except.ok.inj hok
      exact ⟨(congrArg Prod.snd h3).symm, by simp⟩
  | rp :: rest, t, hh, t2, hOpt, hmem, hok => by
      unfold prLoop at hok
      rcases hs : procRef E ids t rp (some hh) with e | pr
      · rw [hs] at hok
        exact Except.noConfusion hok
      · rcases pr with ⟨t3, h3⟩
        simp only [hs] at hok
        have hne : hh ≠ "" := hashlibNames_ne_empty hh hmem
        obtain ⟨hh3, hname⟩ := procRef_step_some E ids t rp hh t3 h3 hne hs
        subst hh3
        obtain ⟨hopt, hall⟩ := prLoop_some E ids rest t3 hh t2 hOpt hmem hok
        refine ⟨hopt, ?_⟩
        intro rp2 hrp2
        rcases List.mem_cons.mp hrp2 with h1 | h2
        · subst h1
          exact hname
        · have hframe := (procRef_frame E ids t rp (some hh) t3 (some hh) hs).2
          rw [← refHashNameE_congr t3 t rp2 hframe]
          exact hall rp2 h2

theorem prLoop_none (E : Externals) (ids : List String) (rps : List (List Nat)) (t : Node)
    (t2 : Node) (hOpt : Option String)
    (hok : prLoop E ids rps t none = .ok (t2, hOpt)) :
    (rps = [] ∧ hOpt = none ∧ t2 = t) ∨
    (∃ h1, hOpt = some h1 ∧ h1 ∈ hashlibNames ∧ ∀ rp ∈ rps, refHashNameE t rp = .ok h1) := by
  cases rps with
  | nil =>
      left
      have h3 := Except.ok.inj hok
      exact ⟨rfl, (congrArg Prod.snd h3).symm, (congrArg Prod.fst h3).symm⟩
  | cons rp rest =>
      right
      unfold prLoop at hok
      rcases hs : procRef E ids t rp none with e | pr
      · rw [hs] at hok
        exact Except.noConfusion hok
      · rcases pr with ⟨t3, h3⟩
        simp only [hs] at hok
        obtain ⟨h1, hh3, hmem, hname⟩ := procRef_step_none E ids t rp t3 h3 hs
        subst hh3
        obtain ⟨hopt, hall⟩ := prLoop_some E ids rest t3 h1 t2 hOpt hmem hok
        refine ⟨h1, hopt, hmem, ?_⟩
        intro rp2 hrp2
        rcases List.mem_cons.mp hrp2 with hq | hq
        · subst hq
          exact hname
        · have hframe := (procRef_frame E ids t rp none t3 (some h1) hs).2
          rw [← refHashNameE_congr t3 t rp2 hframe]
          exact hall rp2 hq

/-- C8: on every normal return of `_process_references` with at least one
    Reference, the returned hash name is a single name shared by every
    Reference of the Signature (the first included); and as soon as a
    Reference whose dereference and transforms succeed names a hash
    different from the recorded (non-empty) one, the loop step fails with
    InconsistentHash before digesting anything. -/
theorem C8_hash_consistency (E : Externals) (ids : List String) (t sig : Node)
    (sp : List Nat) (t2 : Node) (hOpt : Option String)
    (hsig : getAt t sp = some sig)
    (hpr : _process_references E ids t sp = .ok (t2, hOpt)) :
    (findTagPaths sig tagReference ≠ [] →
      ∃ h, hOpt = some h ∧
        ∀ rp ∈ (findTagPaths sig tagReference).map (fun q => sp ++ q),
          refHashNameE t rp = .ok h) ∧
    (∀ (t3 : Node) (rp : List Nat) (h3 this : String) (ob : XObj),
      h3 ≠ "" → refObject E ids t3 rp = .ok ob → refHashNameE t3 rp = .ok this →
      this ≠ h3 → procRef E ids t3 rp (some h3) = .error .inconsistentHash) := by
  constructor
  · intro hne
    unfold _process_references at hpr
    rw [hsig] at hpr
    rcases prLoop_none E ids _ t t2 hOpt hpr with ⟨hrps, _, _⟩ | ⟨h1, hopt, _, hall⟩
    · exact absurd (by simpa using hrps) hne
    · exact ⟨h1, hopt, hall⟩
  · intro t3 rp h3 this ob hne ho hn hth
    unfold procRef
    rw [ho, hn]
    simp only [if_neg hne]
    rw [if_pos (by simpa using hth)]

/-- C8 witness: the example Signature has one Reference; processing returns
    its (uniform) hash name sha1, and feeding the loop step a different
    recorded hash (sha256) on the same Reference fails with
    InconsistentHash. -/
theorem C8_hash_consistency_witness :
    (∃ h, some "sha1" = some h ∧
      ∀ rp ∈ (findTagPaths exSig tagReference).map (fun q => [0] ++ q),
        refHashNameE exDoc rp = .ok h) ∧
    procRef exExt _id_attributes exDoc [0, 0, 1] (some "sha256") =
      .error .inconsistentHash := by
  constructor
  · exact ((C8_hash_consistency exExt _id_attributes exDoc exSig [0] exDoc2 (some "sha1")
      rfl rfl).1 (by decide)).imp (fun h hx => hx)
  · exact (C8_hash_consistency exExt _id_attributes exDoc exSig [0] exDoc2 (some "sha1")
      rfl rfl).2 exDoc [0, 0, 1] "sha256" "sha1"
      (.bytes [60, 120, 47, 62]) (by decide) rfl rfl (by decide)

/- ------------------------------------------------------------------
   C1: the padded-block comparison inside verify.
   ------------------------------------------------------------------ -/

theorem _digest_ok_bytes (E : Externals) (ob : XObj) (h : String) (dg : String)
    (hok : _digest E ob (some h) = .ok dg) :
    ∃ b, ob = .bytes b ∧ dg = b64e (E.hashFn h b) := by
  rw [_digest.eq_def] at hok
  simp only [] at hok
  cases hc : hashlibNames.contains h with
  | false =>
      rw [hc, if_neg (by decide)] at hok
      exact Except.noConfusion hok
  | true =>
      rw [hc, if_pos rfl] at hok
      match ob with
      | .bytes b => exact ⟨b, rfl, (Except.ok.inj hok).symm⟩
      | .tree _ => exact Except.noConfusion hok

/-- C1: given a Signature whose components all resolve (SignatureValue
    text, certificate, parsed key, reference processing yielding hash
    name h, SignedInfo digest, padded block built with modulus size
    key.size()+1 and do_pad=true), verify compares that block
    byte-for-byte against the raw public-exponent image of the
    base64-decoded SignatureValue and fails with SignatureMismatch
    exactly when the two differ; moreover the digest fed to the block is
    the raw (base64-decode of the base64-encoded) hash of the
    canonicalized SignedInfo bytes. -/
theorem C1_padded_block_comparison (E : Externals) (idAttrs : List String) (k : String)
    (t sig : Node) (sp : List Nat) (sv pem : String) (key : RSAKey) (svb : List Nat)
    (t2 sig2 si : Node) (h : String) (bdg blk : List Nat)
    (hbytes : ∀ (s : String) (d : List Nat), ∀ x ∈ E.hashFn s d, x < 256)
    (hsig : getAt t sp = some sig)
    (hsv : findTextDesc sig tagSignatureValue = some sv)
    (hcert : _cert E sig k = .ok pem)
    (hkey : E.rsaParse pem = some key)
    (hsvb : b64d sv = some svb)
    (hpr : _process_references E idAttrs t sp = .ok (t2, some h))
    (hsig2 : getAt t2 sp = some sig2)
    (hsi : findFirst sig2 tagSignedInfo = some si)
    (hcsd : _create_signature_digest E si (some h) = .ok bdg)
    (hblk : _signed_value bdg (key.size + 1) true h = .ok blk) :
    verifySig E idAttrs k t sp =
      (if key.pub svb = blk then .ok t2 else .error .signatureMismatch) ∧
    (∃ ser, siTransformed E si = .ok (.bytes ser) ∧ bdg = E.hashFn h ser) := by
  constructor
  · unfold verifySig
    simp only [hsig, hsv, hcert, hkey, hsvb, hpr, hsig2, hsi, hcsd, hblk]
  · unfold _create_signature_digest at hcsd
    rcases hst : siTransformed E si with e | sic
    · rw [hst] at hcsd
      exact Except.noConfusion hcsd
    · rw [hst] at hcsd
      rcases hdg : _digest E sic (some h) with e | dg
      · simp only [hdg] at hcsd
        exact Except.noConfusion hcsd
      · simp only [hdg] at hcsd
        obtain ⟨b, hb, hdgv⟩ := _digest_ok_bytes E sic h dg hdg
        subst hb
        rcases hbd : b64d dg with _ | raw
        · rw [hbd] at hcsd
          exact Except.noConfusion hcsd
        · rw [hbd] at hcsd
          have hraw : raw = bdg := Except.ok.inj hcsd
          subst hdgv
          rw [b64d_b64e (E.hashFn h b) (hbytes h b)] at hbd
          have : E.hashFn h b = raw := Option.some.inj hbd
          exact ⟨b, rfl, by rw [← hraw, ← this]⟩

/-- C1 witness: the concrete example run, where the padded block equals the
    public image and verifySig succeeds with the mutated document. -/
theorem C1_padded_block_comparison_witness :
    verifySig exExt _id_attributes "k" exDoc [0] =
      (if exKey.pub [0] = exBlock then .ok exDoc2 else .error .signatureMismatch) ∧
    (∃ ser, siTransformed exExt (setTextAt exSI [1, 2] "AQID") = .ok (.bytes ser) ∧
      ([1, 2, 3] : List Nat) = exExt.hashFn "sha1" ser) :=
  C1_padded_block_comparison exExt _id_attributes "k" exDoc exSig [0] "AA==" "k" exKey [0]
    exDoc2 (setTextAt exSig [0, 1, 2] "AQID") (setTextAt exSI [1, 2] "AQID") "sha1"
    [1, 2, 3] exBlock
    (by
      intro s d x hx
      simp only [exExt, List.mem_cons, List.mem_singleton] at hx
      rcases hx with rfl | rfl | rfl | hx
      · omega
      · omega
      · omega
      · simp at hx)
    rfl rfl rfl rfl rfl rfl rfl rfl rfl rfl
